import Mathlib

/-! # go-httpc: a verification development

A shallow embedding of the HTTP client middleware library `go-httpc`
(`transport.go`, `cachemw/cache.go`, `cachemw/textcache/text.go`) and proofs
about its pipeline composer, its default key deriver and its cache
interceptor.

Conventions of the embedding:

* a Go `string` / `[]byte` is a list of bytes (`Bytes`); cache keys, which the
  code produces with `fmt.Sprintf`, are Lean `String`s;
* a Go `io.ReadCloser` is a `Body`: the bytes still to be read and the error
  (if any) the stream ends with;
* a `*http.Request` / `*http.Response` that a function mutates in place is
  passed in and returned (state passing);
* `uint64` arithmetic is arithmetic on `Nat` modulo `2 ^ 64`;
* a round trip runs in a `World`: the backend's state, the downstream state and
  a trace with one event per call the interceptor makes to the backend, to the
  key deriver and to the downstream handler, which is what "invoked exactly
  once" and "issues no write" are stated on;
* `net/http`'s wire format (`Response.Write`, `ReadResponse`) is a parameter
  (`Wire`), and a `LawfulWire` where a statement is about what is read back
  from a stored entry; `hash/fnv`, `fmt`, `path/filepath` and
  `httputil.DumpResponse` are modelled from their documented behaviour.
-/

namespace Httpc

/-! ## Data model -/

/-- One octet. -/
abbrev Byte := Fin 256

/-- A Go byte slice, and also a Go string (an immutable byte sequence). -/
abbrev Bytes := List Byte

/-- A Go `error` value. -/
abbrev Error := String

deriving instance DecidableEq for Except

/-- The bytes of an ASCII text, for writing concrete requests down. -/
def ascii (s : String) : Bytes := s.data.map (fun c => Fin.ofNat c.toNat)

/-- An `io.ReadCloser`: reading it yields `pending` and then ends, with end of
file when `fail` is `none` and with that error otherwise; closing it returns
`closeErr`. -/
structure Body where
  pending : Bytes
  fail : Option Error
  closeErr : Option Error := none
  deriving DecidableEq, Repr

/-- `bytes.NewReader(b)` wrapped in `io.NopCloser`: a fresh stream over `b`. -/
def Body.newReader (b : Bytes) : Body := { pending := b, fail := none }

/-- `io.ReadAll(r)`: the bytes read, the error met (none at end of file), and the
stream afterwards, which has nothing left to yield. -/
def Body.readAll (r : Body) : Bytes × Option Error × Body :=
  (r.pending, r.fail, { r with pending := [] })

/-- `r.Close()`: the error closing returns, if any. -/
def Body.close (r : Body) : Option Error := r.closeErr

/-- The fields of `*http.Request` the library reads: `Method`, `URL.String()`
and `Body` (`none` is a nil body). -/
structure Request where
  method : Bytes
  url : Bytes
  body : Option Body
  deriving DecidableEq, Repr

/-! ## `hash/fnv` and `fmt.Sprintf("%x", ...)` -/

/-- The FNV-1a 64-bit offset basis. -/
def fnvOffset64 : Nat := 14695981039346656037

/-- The FNV-1a 64-bit prime. -/
def fnvPrime64 : Nat := 1099511628211

/-- `(*sum64a).Write`: for each byte, xor it into the state, then multiply by the
prime, in `uint64`. -/
def fnvWrite (hash : Nat) (data : Bytes) : Nat :=
  data.foldl (fun h c => ((h ^^^ c.val) * fnvPrime64) % 2 ^ 64) hash

/-- The 64-bit FNV-1a hash of a byte sequence: `fnv.New64a()`, one `Write`,
`Sum64()`. -/
def fnv1a64 (data : Bytes) : Nat := fnvWrite fnvOffset64 data

/-- `fmt.Sprintf("%x", v)` for an unsigned `v`: lowercase hexadecimal, no
prefix, no leading zeros, `"0"` for zero. -/
def sprintfHex (v : Nat) : String := String.mk (Nat.toDigits 16 v)

/-! ## `cachemw.GenerateRequestHash` -/

/-- `GenerateRequestHash(req)`. The request is mutated in place, so it is
returned next to the `(string, error)` result.

The source declares `var body []byte` and then, inside `if req.Body != nil`,
writes `body, err := io.ReadAll(req.Body)`: the `:=` declares a new `body`
local to the block (here `inner`), which is what the request's body is
restored from; the outer `body`, the one passed to `hash.Write`, stays nil. -/
def GenerateRequestHash (req : Request) : Except Error String × Request :=
  let method := req.method
  let url := req.url
  let body : Bytes := []
  let finish (req1 : Request) : Except Error String × Request :=
    let hash := fnvOffset64
    let hash := fnvWrite hash method
    let hash := fnvWrite hash url
    let hash := fnvWrite hash body
    (.ok (sprintfHex hash), req1)
  match req.body with
  | some rb =>
    match rb.readAll with
    | (_, some err, rb1) => (.error err, { req with body := some rb1 })
    | (inner, none, _) => finish { req with body := some (Body.newReader inner) }
  | none => finish req

/-- The fingerprint as the specification words it: the lowercase hexadecimal
rendering of the 64-bit FNV-1a hash of method, URL string and body bytes, in
that order. -/
def specRequestHash (m u b : Bytes) : String := sprintfHex (fnv1a64 (m ++ u ++ b))

/-! ## `net/http` responses and their wire form -/

/-- An `http.Header`, as the list of its key/value lines. -/
abbrev Header := List (Bytes × Bytes)

/-- The fields of `*http.Response` that make up its content: status, header and
`Body` (`none` is a nil body). -/
structure Response where
  status : Nat
  header : Header
  body : Option Body
  deriving DecidableEq, Repr

/-- The HTTP/1.x wire format of `net/http`, which is outside the repository and
therefore a parameter: `write` is `(*http.Response).Write` on a status, a header
and the body bytes, `read` is `http.ReadResponse` on the stored bytes and the
request the response answers. Either may fail. -/
structure Wire where
  write : Nat → Header → Bytes → Except Error Bytes
  read : Bytes → Request → Except Error Response

/-- `httputil.drainBody(b)` for a non-nil `b`: read `b` to its end, then close
it; when either fails return `(nil, b, err)` with `b` consumed; otherwise return
two fresh readers over the bytes read. -/
def drainBody (b : Body) : Option Body × Body × Option Error :=
  match b.readAll with
  | (_, some err, b1) => (none, b1, some err)
  | (data, none, b1) =>
    match b1.close with
    | some err => (none, b1, some err)
    | none => (some (Body.newReader data), Body.newReader data, none)

/-- `httputil.DumpResponse(resp, true)`. The response is mutated in place, so it
is returned next to the `([]byte, error)` result: a nil body is written as the
empty body and stays nil; a body that fails to read or to close is left consumed
and nothing is written; otherwise the body is drained, written, and replaced by
a fresh reader over the same bytes. -/
def DumpResponse (wire : Wire) (resp : Response) : Except Error Bytes × Response :=
  match resp.body with
  | none => (wire.write resp.status resp.header [], resp)
  | some b =>
    match drainBody b with
    | (_, b2, some err) => (.error err, { resp with body := some b2 })
    | (save, b2, none) => (wire.write resp.status resp.header b2.pending, { resp with body := save })

/-- The `(*http.Response, error)` pair a round tripper returns. By the contract
of `http.RoundTripper` a nil error comes with a response (`success`); with a
non-nil error the response may or may not be nil (`failure`). -/
inductive Outcome where
  | success (resp : Response)
  | failure (resp : Option Response) (err : Error)
  deriving DecidableEq, Repr

/-- The first component of the pair. -/
def Outcome.resp? : Outcome → Option Response
  | .success r => some r
  | .failure r _ => r

/-- The second component of the pair. -/
def Outcome.err? : Outcome → Option Error
  | .success _ => none
  | .failure _ e => some e

/-! ## `cachemw`: backends, configuration, the world -/

/-- A cache backend over a state `S`: the `Cache` interface (`Get`, `Set`), and
the two capabilities the middleware discovers by type assertion: `CacheWithTTL`
(`setWithTTL` present) and `KeyGenerator` (`key` present). A `time.Duration` is
an integer count of nanoseconds. -/
structure Cache (S : Type) where
  get : String → S → Except Error Bytes × S
  set : String → Bytes → S → Option Error × S
  setWithTTL : Option (String → Bytes → Int → S → Option Error × S)
  key : Option (Request → S → (Except Error String × Request) × S)

/-- The struct `CacheMiddleware` (its `singleflight.Group` holds no entry between
calls and is not a field here). -/
structure CacheMiddleware (S : Type) where
  cache : Cache S
  cacheableReq : Request → Bool
  ttl : Int

/-- The type `Option` of package `cachemw`: `func(*CacheMiddleware)`. -/
abbrev CacheOption (S : Type) := CacheMiddleware S → CacheMiddleware S

/-- The default predicate `cacheableReq`. -/
def cacheableReq (_req : Request) : Bool := true

/-- `WithCacheableReq(f)`. -/
def WithCacheableReq {S : Type} (f : Request → Bool) : CacheOption S :=
  fun c => { c with cacheableReq := f }

/-- `WithTTL(ttl)`. -/
def WithTTL {S : Type} (ttl : Int) : CacheOption S :=
  fun c => { c with ttl := ttl }

/-- `New(cache, opts...)`. -/
def New {S : Type} (cache : Cache S) (opts : List (CacheOption S)) : CacheMiddleware S :=
  opts.foldl (fun c opt => opt c) { cache := cache, cacheableReq := cacheableReq, ttl := 0 }

/-- What the interceptor does to the outside, in order: one event per call of
`m.key`, `Cache.Get`, `Cache.Set`, `CacheWithTTL.SetWithTTL` and of the downstream
handler. -/
inductive Event where
  | key (req : Request)
  | get (key : String)
  | set (key : String) (value : Bytes)
  | setWithTTL (key : String) (value : Bytes) (ttl : Int)
  | next (req : Request)
  deriving DecidableEq, Repr

/-- Is the event a backend write (`Set` or `SetWithTTL`)? -/
def Event.isWrite : Event → Bool
  | .set _ _ => true
  | .setWithTTL _ _ _ => true
  | _ => false

/-- Is the event an invocation of the downstream handler? -/
def Event.isNext : Event → Bool
  | .next _ => true
  | _ => false

/-- The state a round trip runs in: the backend's state, the state of whatever
answers downstream, and the record of the calls made so far. -/
structure World (S T : Type) where
  store : S
  origin : T
  trace : List Event

/-- An `http.RoundTripper`, in state-passing form. -/
abbrev Handler (S T : Type) := Request → World S T → Outcome × World S T

/-- A downstream handler with its own state `T`, disjoint from the backend: each
invocation is recorded in the trace. -/
def origin {S T : Type} (h : Request → T → Outcome × T) : Handler S T :=
  fun req w =>
    let (o, t) := h req w.origin
    (o, { w with origin := t, trace := w.trace ++ [Event.next req] })

/-! ## `cachemw`: the interceptor -/

/-- `(*CacheMiddleware).key`: the backend's `Key` when it is a `KeyGenerator`,
`GenerateRequestHash` otherwise. -/
def CacheMiddleware.key {S : Type} (m : CacheMiddleware S) (req : Request) (s : S) :
    (Except Error String × Request) × S :=
  match m.cache.key with
  | some g => g req s
  | none => (GenerateRequestHash req, s)

/-- `(*CacheMiddleware).bytesToResponse`. -/
def bytesToResponse (wire : Wire) (data : Bytes) (req : Request) : Except Error Response :=
  wire.read data req

/-- `singleflight.Group.Do(key, fn)` entered when no call for `key` is in flight:
`fn` runs, its result is returned, and the group forgets the key. -/
def groupDo {S T : Type} (_key : String) (fn : World S T → Outcome × World S T) (w : World S T) :
    Outcome × World S T :=
  fn w

/-- The closure handed to `group.Do` in `RoundTripper`: forward, and on success
dump the response and write it back, ignoring every cache-side error. -/
def forwardAndStore {S T : Type} (m : CacheMiddleware S) (wire : Wire) (next : Handler S T)
    (key : String) (req : Request) (w : World S T) : Outcome × World S T :=
  match next req w with
  | (.failure resp err, w1) => (.failure resp err, w1)
  | (.success resp, w1) =>
    match DumpResponse wire resp with
    | (.ok dumpedResp, resp1) =>
      match m.cache.setWithTTL, decide (m.ttl > 0) with
      | some setWithTTL, true =>
        let (_, s) := setWithTTL key dumpedResp m.ttl w1.store
        (.success resp1,
          { w1 with store := s, trace := w1.trace ++ [Event.setWithTTL key dumpedResp m.ttl] })
      | _, _ =>
        let (_, s) := m.cache.set key dumpedResp w1.store
        (.success resp1, { w1 with store := s, trace := w1.trace ++ [Event.set key dumpedResp] })
    | (.error _, resp1) => (.success resp1, w1)

/-- `(*CacheMiddleware).RoundTripper(next)`, applied to a request. -/
def CacheMiddleware.RoundTripper {S T : Type} (m : CacheMiddleware S) (wire : Wire)
    (next : Handler S T) : Handler S T :=
  fun req w =>
    if !m.cacheableReq req then
      next req w
    else
      match m.key req w.store with
      | ((.error _, req1), s1) =>
        next req1 { w with store := s1, trace := w.trace ++ [Event.key req] }
      | ((.ok key, req1), s1) =>
        let w1 : World S T := { w with store := s1, trace := w.trace ++ [Event.key req] }
        let (cached, s2) := m.cache.get key w1.store
        let w2 : World S T := { w1 with store := s2, trace := w1.trace ++ [Event.get key] }
        let hit : Option Response :=
          match cached with
          | .ok data =>
            match bytesToResponse wire data req1 with
            | .ok resp => some resp
            | .error _ => none
          | .error _ => none
        match hit with
        | some resp => (.success resp, w2)
        | none => groupDo key (forwardAndStore m wire next key req1) w2

/-- Send the same request `n` times, one call after the other. -/
def replay {S T : Type} (h : Handler S T) (req : Request) : Nat → World S T → List Outcome × World S T
  | 0, w => ([], w)
  | n + 1, w =>
    let (o, w1) := h req w
    let (os, w2) := replay h req n w1
    (o :: os, w2)

/-! ## `httpc.Transport` -/

/-- An `http.RoundTripper` as a function from requests to results. -/
abbrev RoundTripper (Req Res : Type) := Req → Res

/-- The interface `Middleware`: its one method `RoundTripper(next)`. -/
abbrev Middleware (Req Res : Type) := RoundTripper Req Res → RoundTripper Req Res

/-- The struct `Transport`. -/
structure Transport (Req Res : Type) where
  rt : RoundTripper Req Res
  middlewares : List (Middleware Req Res)

/-- The type `Option` of package `httpc`: `func(*Transport)`. -/
abbrev TransportOption (Req Res : Type) := Transport Req Res → Transport Req Res

/-- `WithBaseTransport(rt)`. -/
def WithBaseTransport {Req Res : Type} (rt : RoundTripper Req Res) : TransportOption Req Res :=
  fun t => { t with rt := rt }

/-- `NewTransport(opts...)`; `defaultRT` stands for the clone of
`http.DefaultTransport`. -/
def NewTransport {Req Res : Type} (defaultRT : RoundTripper Req Res)
    (opts : List (TransportOption Req Res)) : Transport Req Res :=
  opts.foldl (fun t opt => opt t) { rt := defaultRT, middlewares := [] }

/-- `(*Transport).Use(middleware...)`. -/
def Transport.Use {Req Res : Type} (t : Transport Req Res) (middleware : List (Middleware Req Res)) :
    Transport Req Res :=
  { t with middlewares := t.middlewares ++ middleware }

/-- The loop of `RoundTrip`, `for i := len(t.middlewares) - 1; i >= 0; i--`, with
`n = i + 1` iterations left: wrap `next` in `middlewares[i]` and go on. -/
def wrapLoop {Req Res : Type} (middlewares : List (Middleware Req Res)) :
    Nat → RoundTripper Req Res → RoundTripper Req Res
  | 0, next => next
  | i + 1, next =>
    match middlewares.get? i with
    | some m => wrapLoop middlewares i (m next)
    | none => wrapLoop middlewares i next

/-- `(*Transport).RoundTrip(req)`. -/
def Transport.RoundTrip {Req Res : Type} (t : Transport Req Res) (req : Req) : Res :=
  if t.middlewares.length = 0 then
    t.rt req
  else
    let next := wrapLoop t.middlewares t.middlewares.length t.rt
    next req

/-- The onion `m1.RoundTripper(m2.RoundTripper(... mn.RoundTripper(rt) ...))`. -/
def onion {Req Res : Type} : List (Middleware Req Res) → RoundTripper Req Res → RoundTripper Req Res
  | [], rt => rt
  | m :: ms, rt => m (onion ms rt)

/-! ## `path/filepath` (Unix) and `textcache` -/

/-- The elements of a path between its separators: `strings.Split(path, "/")`. -/
def splitSlash : List Char → List (List Char)
  | [] => [[]]
  | c :: cs =>
    if c = '/' then [] :: splitSlash cs
    else
      match splitSlash cs with
      | x :: xs => (c :: x) :: xs
      | [] => [[c]]

/-- Elements put together with one separator between neighbours:
`strings.Join(elem, "/")`. -/
def joinSlash : List (List Char) → List Char
  | [] => []
  | [x] => x
  | x :: y :: rest => x ++ '/' :: joinSlash (y :: rest)

/-- One element meeting the elements `filepath.Clean` has kept so far: an empty
element (doubled separator) and `.` are dropped; `..` removes the element before
it unless there is none or it is itself `..`, in which case `..` is dropped from
a rooted path and kept otherwise; anything else is kept. -/
def cleanStep (rooted : Bool) (kept : List (List Char)) (elem : List Char) : List (List Char) :=
  if elem = [] ∨ elem = ['.'] then kept
  else if elem = ['.', '.'] then
    match kept.getLast? with
    | none => if rooted then kept else kept ++ [elem]
    | some last => if last = ['.', '.'] then kept ++ [elem] else kept.dropLast
  else kept ++ [elem]

/-- `filepath.Clean(path)` on Unix, by the rules of its documentation: the
shortest equivalent path, rooted exactly when `path` is, and `.` when nothing is
left. -/
def filepathClean (path : List Char) : List Char :=
  if path = [] then ['.']
  else
    let rooted := decide (path.head? = some '/')
    let kept := (splitSlash path).foldl (cleanStep rooted) []
    let out := (if rooted then ['/'] else []) ++ joinSlash kept
    if out = [] then ['.'] else out

/-- `filepath.Join(elem...)` on Unix: from the first non-empty element on, the
elements joined with the separator, cleaned; the empty string when every element
is empty. -/
def filepathJoin : List (List Char) → List Char
  | [] => []
  | e :: es => if e = [] then filepathJoin es else filepathClean (joinSlash (e :: es))

/-- The struct `TextCache`. -/
structure TextCache where
  baseDir : String
  dumpReq : Bool

/-- `(*TextCache).cacheFilepath(key)`. -/
def TextCache.cacheFilepath (c : TextCache) (key : String) : String :=
  String.mk (filepathJoin [c.baseDir.data, key.data, "response.txt".data])


/-- The characters `%x` can produce. -/
def hexChars : List Char := "0123456789abcdef".data

/-- The file name `cacheFilepath` ends every path with. -/
def responseFile : List Char := "response.txt".data

/-- A directory as the front of the paths beneath it: nothing for the current
directory (`""` or `.`), the root as it is, any other directory followed by a
separator. -/
def beneath (dir : List Char) : List Char :=
  if dir = [] ∨ dir = ['.'] then [] else if dir = ['/'] then ['/'] else dir ++ ['/']


/-! ## Concrete backends, origins and requests -/

/-- The request of the running examples: `POST http://a/` with body `x`. -/
def postX : Request :=
  { method := ascii "POST", url := ascii "http://a/", body := some (Body.newReader (ascii "x")) }

/-- The backend of the replay properties: an in-memory store that returns on
`Get` the bytes last written under the key and an error for a key never
written, and whose entries do not expire. With `ttlCap` it is a `CacheWithTTL`;
it is no `KeyGenerator`. -/
def memCache (ttlCap : Bool) : Cache (List (String × Bytes)) where
  get := fun k s =>
    (match s.lookup k with
      | some v => .ok v
      | none => .error "not found", s)
  set := fun k v s => (none, (k, v) :: s)
  setWithTTL := if ttlCap then some (fun k v _ s => (none, (k, v) :: s)) else none
  key := none

/-- A backend that is down: every operation fails and nothing is kept. -/
def downCache : Cache Unit where
  get := fun _ s => (.error "cache down", s)
  set := fun _ _ s => (some "cache down", s)
  setWithTTL := none
  key := none

/-- A small wire format for concrete runs: one status octet, then the body; it
carries no header lines. -/
def plainWire : Wire where
  write := fun st hd b =>
    if st < 256 ∧ hd = [] then .ok (Fin.ofNat st :: b) else .error "unsupported"
  read := fun data _ =>
    match data with
    | [] => .error "malformed"
    | st :: b => .ok { status := st.val, header := [], body := some (Body.newReader b) }

/-- The origin of the repository's examples: it answers `Hello, <cnt>` and
counts the calls. -/
def helloServer (_req : Request) (cnt : Nat) : Outcome × Nat :=
  (.success
    { status := 200, header := [],
      body := some (Body.newReader
        (ascii "Hello, " ++ (Nat.toDigits 10 cnt).map (fun c => Fin.ofNat c.toNat))) },
    cnt + 1)

/-- The first answer of `helloServer`: status 200, no header lines, body
`Hello, 0`. -/
def hello0 : Response :=
  { status := 200, header := [], body := some (Body.newReader (ascii "Hello, 0")) }

/-- The first answer of `helloServer` in the form `plainWire` writes. -/
def hello0Wire : Bytes := 200 :: ascii "Hello, 0"

/-- An origin that cannot be reached. -/
def deadServer (_req : Request) (cnt : Nat) : Outcome × Nat :=
  (.failure none "connection refused", cnt + 1)

/-- An origin whose connection drops in the middle of the body: the round trip
succeeds, reading the body ends with an error. -/
def truncServer (_req : Request) (cnt : Nat) : Outcome × Nat :=
  (.success
    { status := 200, header := [],
      body := some { pending := ascii "Hel", fail := some "unexpected EOF" } },
    cnt + 1)

/-- A request without a body: `GET http://a/`. -/
def getA : Request := { method := ascii "GET", url := ascii "http://a/", body := none }

/-- A request whose body fails to read: `POST http://a/`, the body ending with an
error after `x`. -/
def brokenPost : Request :=
  { method := ascii "POST", url := ascii "http://a/",
    body := some { pending := ascii "x", fail := some "unexpected EOF" } }

/-- The world before the first call: nothing stored, nothing served, nothing
recorded. -/
def freshWorld : World (List (String × Bytes)) Nat := { store := [], origin := 0, trace := [] }

/-- The world before the first call, over the backend that is down. -/
def downWorld : World Unit Nat := { store := (), origin := 0, trace := [] }


/-! ## Vocabulary of the statements -/

/-- The response reads cleanly: it has no body, or a body that reads to its end
and closes without an error. -/
def Response.readable (r : Response) : Prop :=
  ∀ b, r.body = some b → b.fail = none ∧ b.closeErr = none

/-- What a reader gets out of a response: status, header, the bytes its body
yields (none for a nil body) and the error the body ends with. -/
def Response.content (r : Response) : Nat × Header × Bytes × Option Error :=
  match r.body with
  | none => (r.status, r.header, [], none)
  | some b => (r.status, r.header, b.readAll.1, b.readAll.2.1)

/-- Key derivation fails for `req` in backend state `s`. -/
def keyFails {S : Type} (m : CacheMiddleware S) (req : Request) (s : S) : Prop :=
  ∃ e, (m.key req s).1.1 = .error e

/-- The key is derived and the backend `Get` under it fails. -/
def getFails {S : Type} (m : CacheMiddleware S) (req : Request) (s : S) : Prop :=
  ∃ key e, (m.key req s).1.1 = .ok key ∧ (m.cache.get key (m.key req s).2).1 = .error e

/-- The key is derived, `Get` returns bytes, and the bytes fail to deserialize. -/
def parseFails {S : Type} (m : CacheMiddleware S) (wire : Wire) (req : Request) (s : S) : Prop :=
  ∃ key data e, (m.key req s).1.1 = .ok key
    ∧ (m.cache.get key (m.key req s).2).1 = .ok data
    ∧ bytesToResponse wire data (m.key req s).1.2 = .error e

/-- The write-back fails: the call misses (the key is derived; `Get` fails or its
bytes do not parse), the downstream handler `h`, run on origin state `t`,
succeeds, the response serializes, and the write the interceptor then issues
(`SetWithTTL` or `Set`) returns an error. -/
def writeFails {S T : Type} (m : CacheMiddleware S) (wire : Wire) (h : Request → T → Outcome × T)
    (req : Request) (s : S) (t : T) : Prop :=
  ∃ key resp dumped err, (m.key req s).1.1 = .ok key
    ∧ (∀ data, (m.cache.get key (m.key req s).2).1 = .ok data →
        ∃ e, bytesToResponse wire data (m.key req s).1.2 = .error e)
    ∧ (h (m.key req s).1.2 t).1 = .success resp
    ∧ (DumpResponse wire resp).1 = .ok dumped
    ∧ ((∃ f, m.cache.setWithTTL = some f ∧ 0 < m.ttl
          ∧ (f key dumped m.ttl (m.cache.get key (m.key req s).2).2).1 = some err)
        ∨ ((m.cache.setWithTTL = none ∨ m.ttl ≤ 0)
          ∧ (m.cache.set key dumped (m.cache.get key (m.key req s).2).2).1 = some err))


/-- The backend in state `s` holds `value` under `key`: `Get` returns it. -/
def Cache.holds {S : Type} (c : Cache S) (key : String) (value : Bytes) (s : S) : Prop :=
  (c.get key s).1 = .ok value


/-! ## The wire format as a serializer that round-trips -/

/-- A wire format that obeys the round-trip law of the serializer: whatever
`write` produced for a status, a header and body bytes, `read` parses back into
a response of that status, that header and a body yielding those bytes. -/
structure LawfulWire extends Wire where
  roundTrip : ∀ (st : Nat) (hd : Header) (b out : Bytes) (req : Request),
    write st hd b = .ok out → ∃ r, read out req = .ok r ∧ r.content = (st, hd, b, none)

/-- One field in framed form: a length octet, then the bytes; nothing for a field
of 256 bytes or more. -/
def frameField (f : Bytes) : Option Bytes :=
  if f.length < 256 then some (Fin.ofNat f.length :: f) else none

/-- The field a framed form starts with, and what follows it. -/
def unframeField : Bytes → Option (Bytes × Bytes)
  | [] => none
  | n :: rest => if n.val ≤ rest.length then some (rest.take n.val, rest.drop n.val) else none

/-- The header lines in framed form: key and value of each line, in order. -/
def frameHeader : Header → Option Bytes
  | [] => some []
  | (k, v) :: rest =>
    match frameField k, frameField v, frameHeader rest with
    | some a, some b, some c => some (a ++ b ++ c)
    | _, _, _ => none

/-- The `n` header lines a framed form starts with, and what follows them. -/
def unframeHeader : Nat → Bytes → Option (Header × Bytes)
  | 0, bs => some ([], bs)
  | n + 1, bs =>
    match unframeField bs with
    | none => none
    | some (k, r1) =>
      match unframeField r1 with
      | none => none
      | some (v, r2) =>
        match unframeHeader n r2 with
        | none => none
        | some (hs, r3) => some ((k, v) :: hs, r3)

/-- A wire format for concrete runs that carries header lines: two status
octets, the number of header lines, the lines with each key and value framed by
its length, then the body. -/
def framedFormat : Wire where
  write := fun st hd b =>
    if st < 65536 ∧ hd.length < 256 then
      match frameHeader hd with
      | some e => .ok (Fin.ofNat (st / 256) :: Fin.ofNat (st % 256) :: Fin.ofNat hd.length :: (e ++ b))
      | none => .error "header field too long"
    else .error "unsupported"
  read := fun data _ =>
    match data with
    | hi :: lo :: cnt :: rest =>
      match unframeHeader cnt.val rest with
      | some (hd, b) =>
        .ok { status := hi.val * 256 + lo.val, header := hd, body := some (Body.newReader b) }
      | none => .error "malformed"
    | _ => .error "malformed"

/-- The framed format round-trips. -/
def framedWire : LawfulWire where
  toWire := framedFormat
  roundTrip := by
    have hfield : ∀ (f e tail : Bytes), frameField f = some e →
        unframeField (e ++ tail) = some (f, tail) := by
      intro f e tail h
      unfold frameField at h
      split at h
      · next hlt =>
        have he : e = Fin.ofNat f.length :: f := (Option.some.inj h).symm
        subst he
        have hv : (Fin.ofNat f.length : Fin 256).val = f.length := Nat.mod_eq_of_lt hlt
        simp [unframeField, hv]
      · cases h
    have hhead : ∀ (hd : Header) (e tail : Bytes), frameHeader hd = some e →
        unframeHeader hd.length (e ++ tail) = some (hd, tail) := by
      intro hd
      induction hd with
      | nil =>
        intro e tail h
        have he : e = [] := (Option.some.inj h).symm
        subst he
        rfl
      | cons kv rest ih =>
        intro e tail h
        obtain ⟨k, v⟩ := kv
        simp only [frameHeader] at h
        cases hk : frameField k with
        | none => simp [hk] at h
        | some a =>
          cases hv : frameField v with
          | none => simp [hk, hv] at h
          | some b =>
            cases hr : frameHeader rest with
            | none => simp [hk, hv, hr] at h
            | some c =>
              have he : e = a ++ b ++ c := by simpa [hk, hv, hr] using h.symm
              subst he
              have h1 := hfield k a (b ++ (c ++ tail)) hk
              have h2 := hfield v b (c ++ tail) hv
              have h3 := ih c tail hr
              simp only [List.length_cons, unframeHeader, List.append_assoc, h1, h2, h3]
    intro st hd b out req hw
    simp only [framedFormat] at hw
    split at hw
    · next hlt =>
      cases hf : frameHeader hd with
      | none => simp [hf] at hw
      | some e =>
        have ho : out = Fin.ofNat (st / 256) :: Fin.ofNat (st % 256) :: Fin.ofNat hd.length
            :: (e ++ b) := by
          simpa [hf] using hw.symm
        subst ho
        have h1 : (Fin.ofNat (st / 256) : Fin 256).val = st / 256 :=
          Nat.mod_eq_of_lt (by omega)
        have h2 : (Fin.ofNat (st % 256) : Fin 256).val = st % 256 :=
          Nat.mod_eq_of_lt (Nat.mod_lt _ (by decide))
        have h3 : (Fin.ofNat hd.length : Fin 256).val = hd.length := Nat.mod_eq_of_lt hlt.2
        have h4 : st / 256 * 256 + st % 256 = st := Nat.div_add_mod' st 256
        refine ⟨{ status := st, header := hd, body := some (Body.newReader b) }, ?_, rfl⟩
        simp only [framedFormat, h1, h2, h3, hhead hd e b hf, h4]
    · cases hw

/-! ## Two callers at once -/

/-- Where a caller stands when it has run `RoundTripper` up to `group.Do`: it
has its answer already (the request is not cacheable, or has no key, or was
answered from the cache), or it is about to join `group.Do` under a key. -/
inductive Pending where
  | answered (o : Outcome)
  | joining (key : String) (req : Request)

/-- The part of `RoundTripper` before `group.Do`: the predicate, the key, the
`Get` and the parse of what it returned. -/
def CacheMiddleware.lookup {S T : Type} (m : CacheMiddleware S) (wire : Wire)
    (next : Handler S T) (req : Request) (w : World S T) : Pending × World S T :=
  if !m.cacheableReq req then
    let (o, w1) := next req w
    (.answered o, w1)
  else
    match m.key req w.store with
    | ((.error _, req1), s1) =>
      let (o, w1) := next req1 { w with store := s1, trace := w.trace ++ [Event.key req] }
      (.answered o, w1)
    | ((.ok key, req1), s1) =>
      let w1 : World S T := { w with store := s1, trace := w.trace ++ [Event.key req] }
      let (cached, s2) := m.cache.get key w1.store
      let w2 : World S T := { w1 with store := s2, trace := w1.trace ++ [Event.get key] }
      let hit : Option Response :=
        match cached with
        | .ok data =>
          match bytesToResponse wire data req1 with
          | .ok resp => some resp
          | .error _ => none
        | .error _ => none
      match hit with
      | some resp => (.answered (.success resp), w2)
      | none => (.joining key req1, w2)

/-- The rest of `RoundTripper`: a caller that has its answer returns it; a caller
about to join runs `group.Do`, here at a moment when no call for its key is in
flight. -/
def CacheMiddleware.join {S T : Type} (m : CacheMiddleware S) (wire : Wire) (next : Handler S T)
    (p : Pending) (w : World S T) : Outcome × World S T :=
  match p with
  | .answered o => (o, w)
  | .joining key req1 => groupDo key (forwardAndStore m wire next key req1) w

/-- One schedule of two callers sending `req` at once: the first runs up to
`group.Do`, then the second does; then the first runs `group.Do`, which returns
and forgets the key; then the second runs `group.Do`. -/
def raceOfTwo {S T : Type} (m : CacheMiddleware S) (wire : Wire) (next : Handler S T)
    (req : Request) (w : World S T) : (Outcome × Outcome) × World S T :=
  let (p1, w1) := m.lookup wire next req w
  let (p2, w2) := m.lookup wire next req w1
  let (o1, w3) := m.join wire next p1 w2
  let (o2, w4) := m.join wire next p2 w3
  ((o1, o2), w4)

/-- The second answer of `helloServer`: status 200, no header lines, body
`Hello, 1`. -/
def hello1 : Response :=
  { status := 200, header := [], body := some (Body.newReader (ascii "Hello, 1")) }

/-- An origin that answers with a header line: `Content-Type: text/plain` and the
body `Hello, <cnt>`, counting the calls. -/
def typedServer (_req : Request) (cnt : Nat) : Outcome × Nat :=
  (.success
    { status := 200, header := [(ascii "Content-Type", ascii "text/plain")],
      body := some (Body.newReader
        (ascii "Hello, " ++ (Nat.toDigits 10 cnt).map (fun c => Fin.ofNat c.toNat))) },
    cnt + 1)

/-- The first answer of `typedServer`. -/
def typed0 : Response :=
  { status := 200, header := [(ascii "Content-Type", ascii "text/plain")],
    body := some (Body.newReader (ascii "Hello, 0")) }

/-- An origin whose response body reads to its end and then fails to close. -/
def closeFailServer (_req : Request) (cnt : Nat) : Outcome × Nat :=
  (.success
    { status := 200, header := [],
      body := some { pending := ascii "Hel", fail := none, closeErr := some "close failed" } },
    cnt + 1)


/-- The first answer of `typedServer` in the form `framedFormat` writes. -/
def typed0Wire : Bytes :=
  [0, 200, 1] ++ (12 :: ascii "Content-Type") ++ (10 :: ascii "text/plain") ++ ascii "Hello, 0"


end Httpc

namespace Httpc

/-! ## The pipeline composer -/

theorem onion_append {Req Res : Type} (xs ys : List (Middleware Req Res)) (rt : RoundTripper Req Res) :
    onion (xs ++ ys) rt = onion xs (onion ys rt) := by
  induction xs with
  | nil => rfl
  | cons m ms ih => simp [onion, ih]

theorem wrapLoop_eq_onion {Req Res : Type} (ms : List (Middleware Req Res)) :
    ∀ (i : Nat) (next : RoundTripper Req Res), i ≤ ms.length →
      wrapLoop ms i next = onion (ms.take i) next := by
  intro i
  induction i with
  | zero => intro next _; simp [wrapLoop, onion]
  | succ i ih =>
    intro next hi
    have hlt : i < ms.length := hi
    have hget : ms.get? i = some (ms.get ⟨i, hlt⟩) := List.get?_eq_get hlt
    have htake : ms.take (i + 1) = ms.take i ++ [ms.get ⟨i, hlt⟩] := by
      rw [List.take_succ]
      simp [List.getElem?_eq_getElem hlt]
    simp only [wrapLoop, hget]
    rw [ih _ (Nat.le_of_lt hlt), htake, onion_append]
    rfl

theorem roundTrip_eq_onion {Req Res : Type} (t : Transport Req Res) (req : Req) :
    t.RoundTrip req = onion t.middlewares t.rt req := by
  unfold Transport.RoundTrip
  split
  · next h =>
    have : t.middlewares = [] := List.length_eq_zero.mp h
    simp [this, onion]
  · simp only
    rw [wrapLoop_eq_onion _ _ _ (Nat.le_refl _), List.take_length]

theorem use_foldl {Req Res : Type} (uses : List (List (Middleware Req Res))) (t : Transport Req Res) :
    (uses.foldl Transport.Use t).rt = t.rt ∧
      (uses.foldl Transport.Use t).middlewares = t.middlewares ++ uses.flatten := by
  induction uses generalizing t with
  | nil => simp
  | cons u us ih =>
    obtain ⟨h1, h2⟩ := ih (t.Use u)
    simp only [List.foldl_cons, List.flatten_cons]
    refine ⟨by rw [h1]; rfl, ?_⟩
    rw [h2]
    simp [Transport.Use]

/-- C8: for every base transport `rt` and every sequence of `Use` calls, each
registering a list of middlewares, `Transport.RoundTrip(req)` is the onion
`m1(m2(... mn(rt) ...))` over the middlewares in registration order, applied to
`req`; a transport with no middleware registered answers `rt.RoundTrip(req)`. -/
theorem transport_roundTrip_onion {Req Res : Type} (defaultRT rt : RoundTripper Req Res)
    (uses : List (List (Middleware Req Res))) (req : Req) :
    (uses.foldl Transport.Use (NewTransport defaultRT [WithBaseTransport rt])).RoundTrip req
        = onion uses.flatten rt req
      ∧ (NewTransport defaultRT [WithBaseTransport rt]).RoundTrip req = rt req
      ∧ (NewTransport defaultRT []).RoundTrip req = defaultRT req := by
  refine ⟨?_, ?_, ?_⟩
  · rw [roundTrip_eq_onion]
    obtain ⟨h1, h2⟩ := use_foldl uses (NewTransport defaultRT [WithBaseTransport rt])
    rw [h1, h2]
    simp [NewTransport, WithBaseTransport]
  · rfl
  · rfl

/-! ## The default key deriver -/

theorem fnvWrite_append (h : Nat) (xs ys : Bytes) :
    fnvWrite h (xs ++ ys) = fnvWrite (fnvWrite h xs) ys := by
  simp [fnvWrite, List.foldl_append]

theorem fnvWrite_lt (data : Bytes) : ∀ h : Nat, h < 2 ^ 64 → fnvWrite h data < 2 ^ 64 := by
  induction data with
  | nil => intro h hh; simpa [fnvWrite] using hh
  | cons c cs ih =>
    intro h _
    have := ih (((h ^^^ c.val) * fnvPrime64) % 2 ^ 64) (Nat.mod_lt _ (by decide))
    simpa [fnvWrite] using this

/-- What `GenerateRequestHash` returns when the body is absent or reads without
error: the hash of method and URL string alone, whatever the body holds. -/
theorem generateRequestHash_ok (req : Request) (hread : ∀ rb, req.body = some rb → rb.fail = none) :
    GenerateRequestHash req
      = (.ok (sprintfHex (fnv1a64 (req.method ++ req.url))),
          { req with body := req.body.map (fun rb => Body.newReader rb.pending) }) := by
  have hh : fnvWrite (fnvWrite (fnvWrite fnvOffset64 req.method) req.url) []
      = fnv1a64 (req.method ++ req.url) := by
    simp [fnv1a64, fnvWrite_append, fnvWrite]
  obtain ⟨m, u, b⟩ := req
  cases b with
  | none => simp [GenerateRequestHash, hh]
  | some rb =>
    have hf := hread rb rfl
    simp [GenerateRequestHash, Body.readAll, hf, hh]

/-- C2 (the code at a failing input): for `POST http://a/` with body `x` the
code returns `e09765199b1f3609`, the FNV-1a hash of `POSThttp://a/`, and not
`c0773b8296098203`, the hash of `POSThttp://a/x` that the claim describes: the
body bytes are not hashed. -/
theorem generateRequestHash_omits_body :
    (GenerateRequestHash postX).1 = .ok "e09765199b1f3609"
      ∧ specRequestHash postX.method postX.url (ascii "x") = "c0773b8296098203"
      ∧ (GenerateRequestHash postX).1 = .ok (specRequestHash postX.method postX.url [])
      ∧ (GenerateRequestHash postX).1
          = (GenerateRequestHash { postX with body := some (Body.newReader (ascii "y")) }).1 := by
  decide

/-- C3: when the request's body is absent or reads without error,
`GenerateRequestHash` leaves method and URL as they were and leaves a body in
place exactly when there was one: a fresh reader over the bytes `b` the old body
yielded, which read to its end gives exactly `b` and no error; a request without
a body still has none. -/
theorem generateRequestHash_restores_body (req : Request)
    (hread : ∀ rb, req.body = some rb → rb.readAll.2.1 = none) :
    (GenerateRequestHash req).2.method = req.method
      ∧ (GenerateRequestHash req).2.url = req.url
      ∧ (GenerateRequestHash req).2.body = req.body.map (fun rb => Body.newReader rb.readAll.1)
      ∧ (∀ rb, req.body = some rb →
          ∃ rest, (Body.newReader rb.readAll.1).readAll = (rb.readAll.1, none, rest))
      ∧ (req.body = none → (GenerateRequestHash req).2.body = none) := by
  have h := generateRequestHash_ok req (fun rb hb => by simpa [Body.readAll] using hread rb hb)
  rw [h]
  refine ⟨rfl, rfl, rfl, ?_, ?_⟩
  · intro rb _
    exact ⟨_, rfl⟩
  · intro hb
    simp [hb]

theorem generateRequestHash_restores_body_witness :
    (∀ rb, postX.body = some rb → rb.readAll.2.1 = none)
      ∧ (GenerateRequestHash postX).2.body = some (Body.newReader (ascii "x"))
      ∧ (GenerateRequestHash postX).2.method = postX.method := by
  have hread : ∀ rb, postX.body = some rb → rb.readAll.2.1 = none := by
    intro rb hb
    have : rb = Body.newReader (ascii "x") := by
      simpa [postX] using hb.symm
    subst this
    rfl
  exact ⟨hread, (generateRequestHash_restores_body postX hread).2.2.1,
    (generateRequestHash_restores_body postX hread).1⟩

/-! ## The fingerprint as a path element -/

theorem digitChar_mem_hexChars (d : Nat) (h : d < 16) : Nat.digitChar d ∈ hexChars := by
  interval_cases d <;> decide

theorem toDigitsCore_mem_hexChars (f : Nat) :
    ∀ (n : Nat) (ds : List Char), (∀ c ∈ ds, c ∈ hexChars) →
      ∀ c ∈ Nat.toDigitsCore 16 f n ds, c ∈ hexChars := by
  induction f with
  | zero => intro n ds h; simpa [Nat.toDigitsCore] using h
  | succ f ih =>
    intro n ds h
    have hcons : ∀ c ∈ Nat.digitChar (n % 16) :: ds, c ∈ hexChars := by
      intro c hc
      rcases List.mem_cons.mp hc with rfl | hc
      · exact digitChar_mem_hexChars _ (Nat.mod_lt _ (by decide))
      · exact h c hc
    simp only [Nat.toDigitsCore]
    split
    · exact hcons
    · exact ih _ _ hcons

theorem toDigits_ne_nil (n : Nat) : Nat.toDigits 16 n ≠ [] := by
  intro h
  have hlen := congrArg List.length h
  simp only [Nat.toDigits, Nat.toDigitsCore] at hlen
  split at hlen
  · simp at hlen
  · rw [Nat.toDigitsCore_lens_eq] at hlen
    simp at hlen

theorem sprintfHex_shape (v : Nat) (hv : v < 2 ^ 64) :
    (sprintfHex v).data ≠ [] ∧ (sprintfHex v).length ≤ 16
      ∧ ∀ c ∈ (sprintfHex v).data, c ∈ hexChars := by
  refine ⟨toDigits_ne_nil v, ?_, ?_⟩
  · have h16 : v < 16 ^ 16 := by
      have : (16 : Nat) ^ 16 = 2 ^ 64 := by norm_num
      omega
    exact Nat.toDigitsCore_length 16 (by decide) (v + 1) v 16 h16 (by decide)
  · exact toDigitsCore_mem_hexChars (v + 1) v [] (by simp)

theorem generateRequestHash_shape (req : Request) (key : String)
    (h : (GenerateRequestHash req).1 = .ok key) :
    key.data ≠ [] ∧ key.length ≤ 16 ∧ ∀ c ∈ key.data, c ∈ hexChars := by
  have hlt : fnvWrite (fnvWrite (fnvWrite fnvOffset64 req.method) req.url) [] < 2 ^ 64 :=
    fnvWrite_lt _ _ (fnvWrite_lt _ _ (fnvWrite_lt _ _ (by decide)))
  have hs := sprintfHex_shape _ hlt
  obtain ⟨m, u, b⟩ := req
  cases b with
  | none =>
    simp only [GenerateRequestHash, Except.ok.injEq] at h
    rw [← h]; exact hs
  | some rb =>
    obtain ⟨pending, fail⟩ := rb
    cases fail with
    | none =>
      simp only [GenerateRequestHash, Body.readAll, Except.ok.injEq] at h
      rw [← h]; exact hs
    | some e => simp [GenerateRequestHash, Body.readAll] at h


theorem splitSlash_ne_nil (p : List Char) : splitSlash p ≠ [] := by
  induction p with
  | nil => simp [splitSlash]
  | cons c cs ih =>
    simp only [splitSlash]
    split
    · simp
    · split <;> simp

theorem splitSlash_of_noSlash (p : List Char) (h : '/' ∉ p) : splitSlash p = [p] := by
  induction p with
  | nil => rfl
  | cons c cs ih =>
    have hc : c ≠ '/' := fun e => h (by simp [e])
    have hcs : '/' ∉ cs := fun e => h (List.mem_cons_of_mem _ e)
    simp [splitSlash, hc, ih hcs]

theorem splitSlash_append_slash (a b : List Char) :
    splitSlash (a ++ '/' :: b) = splitSlash a ++ splitSlash b := by
  induction a with
  | nil => simp [splitSlash]
  | cons c cs ih =>
    by_cases hc : c = '/'
    · simp [splitSlash, hc, ih]
    · cases hsp : splitSlash cs with
      | nil => exact absurd hsp (splitSlash_ne_nil cs)
      | cons x xs =>
        rw [hsp] at ih
        simp [splitSlash, hc, ih, hsp]

theorem splitSlash_mem_noSlash (p : List Char) : ∀ e ∈ splitSlash p, '/' ∉ e := by
  induction p with
  | nil => simp [splitSlash]
  | cons c cs ih =>
    by_cases hc : c = '/'
    · simp only [splitSlash, hc, if_true]
      intro e he
      rcases List.mem_cons.mp he with rfl | he
      · simp
      · exact ih e he
    · simp only [splitSlash, hc, if_false]
      cases hsp : splitSlash cs with
      | nil => exact absurd hsp (splitSlash_ne_nil cs)
      | cons x xs =>
        rw [hsp] at ih
        intro e he
        rcases List.mem_cons.mp he with rfl | he
        · intro hm
          rcases List.mem_cons.mp hm with h1 | h1
          · exact hc h1.symm
          · exact ih x (by simp) h1
        · exact ih e (List.mem_cons_of_mem _ he)

theorem joinSlash_append_two (kept : List (List Char)) (a b : List Char) :
    joinSlash (kept ++ [a, b])
      = (if kept = [] then [] else joinSlash kept ++ ['/']) ++ a ++ '/' :: b := by
  induction kept with
  | nil => simp [joinSlash]
  | cons x xs ih =>
    cases xs with
    | nil => simp [joinSlash]
    | cons y ys =>
      have e1 : (x :: y :: ys) ++ [a, b] = x :: y :: (ys ++ [a, b]) := rfl
      have e2 : (y :: ys) ++ [a, b] = y :: (ys ++ [a, b]) := rfl
      rw [e1, joinSlash, ← e2, ih]
      simp [joinSlash]

theorem cleanStep_keep (rooted : Bool) (kept : List (List Char)) (e : List Char)
    (h1 : e ≠ []) (hd : e ≠ ['.']) (hdd : e ≠ ['.', '.']) :
    cleanStep rooted kept e = kept ++ [e] := by
  simp [cleanStep, h1, hd, hdd]

/-- What `filepath.Clean` keeps is never empty, never `.`, and holds no separator. -/
theorem cleanStep_foldl_kept (rooted : Bool) (elems : List (List Char)) :
    ∀ kept : List (List Char), (∀ e ∈ elems, '/' ∉ e) →
      (∀ k ∈ kept, k ≠ [] ∧ k ≠ ['.'] ∧ '/' ∉ k) →
      ∀ k ∈ elems.foldl (cleanStep rooted) kept, k ≠ [] ∧ k ≠ ['.'] ∧ '/' ∉ k := by
  induction elems with
  | nil => intro kept _ hk; simpa using hk
  | cons e es ih =>
    intro kept he hk
    simp only [List.foldl_cons]
    apply ih
    · intro e1 h1; exact he e1 (List.mem_cons_of_mem _ h1)
    · have hes : '/' ∉ e := he e (by simp)
      have happ : e ≠ [] → e ≠ ['.'] → ∀ k ∈ kept ++ [e], k ≠ [] ∧ k ≠ ['.'] ∧ '/' ∉ k := by
        intro h1 h2 k hk1
        rcases List.mem_append.mp hk1 with h | h
        · exact hk k h
        · have : k = e := by simpa using h
          subst this; exact ⟨h1, h2, hes⟩
      unfold cleanStep
      split
      · exact hk
      · next hne =>
        have h1 : e ≠ [] := fun h => hne (Or.inl h)
        have h2 : e ≠ ['.'] := fun h => hne (Or.inr h)
        split
        · split
          · split
            · exact hk
            · exact happ h1 h2
          · split
            · exact happ h1 h2
            · intro k hk1; exact hk k (List.dropLast_subset _ hk1)
        · exact happ h1 h2

theorem joinSlash_kept (kept : List (List Char)) (hne : kept ≠ [])
    (hk : ∀ k ∈ kept, k ≠ [] ∧ k ≠ ['.'] ∧ '/' ∉ k) :
    joinSlash kept ≠ [] ∧ joinSlash kept ≠ ['.'] ∧ joinSlash kept ≠ ['/'] := by
  match kept, hne, hk with
  | [x], _, hk =>
    obtain ⟨h1, h2, h3⟩ := hk x (by simp)
    refine ⟨by simpa [joinSlash] using h1, by simpa [joinSlash] using h2, ?_⟩
    intro h
    simp only [joinSlash] at h
    exact h3 (by simp [h])
  | x :: y :: rest, _, hk =>
    obtain ⟨h1, _, _⟩ := hk x (by simp)
    have hlen : 2 ≤ (joinSlash (x :: y :: rest)).length := by
      have : 0 < x.length := List.length_pos.mpr h1
      simp only [joinSlash, List.length_append, List.length_cons]
      omega
    refine ⟨?_, ?_, ?_⟩ <;> intro h <;> rw [h] at hlen <;> simp at hlen


theorem clean_foldl_key (rooted : Bool) (elems : List (List Char)) (key : List Char)
    (hk : key ≠ []) (hkd : '.' ∉ key) :
    (elems ++ [key, responseFile]).foldl (cleanStep rooted) []
      = elems.foldl (cleanStep rooted) [] ++ [key, responseFile] := by
  have h2 : key ≠ ['.'] := fun h => hkd (by simp [h])
  have h3 : key ≠ ['.', '.'] := fun h => hkd (by simp [h])
  rw [List.foldl_append]
  simp only [List.foldl_cons, List.foldl_nil]
  rw [cleanStep_keep _ _ key hk h2 h3,
    cleanStep_keep _ _ responseFile (by decide) (by decide) (by decide)]
  simp

theorem splitSlash_key (key : List Char) (hks : '/' ∉ key) :
    splitSlash (key ++ '/' :: responseFile) = [key, responseFile] := by
  rw [splitSlash_append_slash, splitSlash_of_noSlash key hks,
    splitSlash_of_noSlash responseFile (by decide)]
  rfl

theorem filepathClean_key (key : List Char) (hk : key ≠ []) (hks : '/' ∉ key) (hkd : '.' ∉ key) :
    filepathClean (key ++ '/' :: responseFile) = key ++ '/' :: responseFile := by
  have hhead : ¬ (key ++ '/' :: responseFile).head? = some '/' := by
    cases key with
    | nil => exact absurd rfl hk
    | cons c cs =>
      intro h
      have : c = '/' := by simpa using h
      exact hks (by simp [this])
  have hfold := clean_foldl_key false [] key hk hkd
  simp only [List.nil_append, List.foldl_nil] at hfold
  have hne : key ++ '/' :: responseFile ≠ [] := by simp
  unfold filepathClean
  rw [if_neg hne]
  simp only [decide_eq_false hhead, splitSlash_key key hks, hfold, joinSlash]
  simp

theorem filepathClean_base_key (base key : List Char) (hb : base ≠ [])
    (hk : key ≠ []) (hks : '/' ∉ key) (hkd : '.' ∉ key) :
    filepathClean (base ++ '/' :: (key ++ '/' :: responseFile))
      = beneath (filepathClean base) ++ key ++ '/' :: responseFile := by
  have hhead : (base ++ '/' :: (key ++ '/' :: responseFile)).head? = base.head? := by
    cases base with
    | nil => exact absurd rfl hb
    | cons c cs => rfl
  have hsplit : splitSlash (base ++ '/' :: (key ++ '/' :: responseFile))
      = splitSlash base ++ [key, responseFile] := by
    rw [splitSlash_append_slash, splitSlash_key key hks]
  have hkept := fun r => cleanStep_foldl_kept r (splitSlash base) []
    (splitSlash_mem_noSlash base) (by simp)
  have hne : base ++ '/' :: (key ++ '/' :: responseFile) ≠ [] := by simp
  unfold filepathClean
  rw [if_neg hne, if_neg hb]
  simp only [hhead, hsplit, clean_foldl_key _ _ key hk hkd, joinSlash_append_two]
  by_cases hr : base.head? = some '/'
  · simp only [hr, decide_True, if_true]
    by_cases hS : (splitSlash base).foldl (cleanStep true) [] = []
    · simp [hS, joinSlash, beneath]
    · obtain ⟨j1, _, _⟩ := joinSlash_kept _ hS (hkept true)
      simp [hS, beneath, j1]
  · simp only [hr, decide_False]
    by_cases hS : (splitSlash base).foldl (cleanStep false) [] = []
    · simp [hS, joinSlash, beneath]
    · obtain ⟨j1, j2, j3⟩ := joinSlash_kept _ hS (hkept false)
      simp [hS, beneath, j1, j2, j3]

/-- The path `filepath.Join(base, key, "response.txt")` for a key that is a plain
name: the directory `filepath.Join(base)`, then the key, then the file. -/
theorem filepathJoin_key (base key : List Char)
    (hk : key ≠ []) (hks : '/' ∉ key) (hkd : '.' ∉ key) :
    filepathJoin [base, key, responseFile]
      = beneath (filepathJoin [base]) ++ key ++ '/' :: responseFile := by
  by_cases hb : base = []
  · subst hb
    simp only [filepathJoin, if_true, if_neg hk, joinSlash]
    rw [filepathClean_key key hk hks hkd]
    simp [beneath]
  · simp only [filepathJoin, if_neg hb, joinSlash]
    exact filepathClean_base_key base key hb hk hks hkd

/-- C10: a fingerprint `GenerateRequestHash` returns is a non-empty string of at
most 16 characters, each one of `0-9a-f`, so it holds no separator and no dot;
and the path `TextCache` builds from it is the directory
`filepath.Join(baseDir)`, then the key as one whole element, then
`response.txt`. -/
theorem fingerprint_is_one_path_element (c : TextCache) (req : Request) (key : String)
    (h : (GenerateRequestHash req).1 = .ok key) :
    key.data ≠ [] ∧ key.length ≤ 16 ∧ (∀ ch ∈ key.data, ch ∈ hexChars)
      ∧ '/' ∉ key.data ∧ '.' ∉ key.data
      ∧ splitSlash key.data = [key.data]
      ∧ (c.cacheFilepath key).data
          = beneath (filepathJoin [c.baseDir.data]) ++ key.data ++ '/' :: responseFile := by
  obtain ⟨h1, h2, h3⟩ := generateRequestHash_shape req key h
  have hs : '/' ∉ key.data := fun hm => absurd (h3 _ hm) (by decide)
  have hd : '.' ∉ key.data := fun hm => absurd (h3 _ hm) (by decide)
  exact ⟨h1, h2, h3, hs, hd, splitSlash_of_noSlash _ hs, filepathJoin_key _ _ h1 hs hd⟩

theorem fingerprint_is_one_path_element_witness :
    (GenerateRequestHash postX).1 = .ok "e09765199b1f3609"
      ∧ ((TextCache.mk "testdata/tmp" false).cacheFilepath "e09765199b1f3609").data
          = beneath (filepathJoin ["testdata/tmp".data]) ++ "e09765199b1f3609".data
              ++ '/' :: responseFile :=
  ⟨by decide,
    (fingerprint_is_one_path_element (TextCache.mk "testdata/tmp" false) postX
      "e09765199b1f3609" (by decide)).2.2.2.2.2.2⟩


/-! ## The cache interceptor: the three ways through it -/

/-- A request the predicate refuses goes straight to the downstream handler. -/
theorem roundTripper_bypass {S T : Type} (m : CacheMiddleware S) (wire : Wire) (next : Handler S T)
    (req : Request) (w : World S T) (hnc : m.cacheableReq req = false) :
    m.RoundTripper wire next req w = next req w := by
  simp [CacheMiddleware.RoundTripper, hnc]

/-- A request whose key cannot be derived goes to the downstream handler. -/
theorem roundTripper_nokey {S T : Type} (m : CacheMiddleware S) (wire : Wire) (next : Handler S T)
    (req req1 : Request) (w : World S T) (e : Error) (s1 : S)
    (hc : m.cacheableReq req = true)
    (hkey : m.key req w.store = ((.error e, req1), s1)) :
    m.RoundTripper wire next req w
      = next req1 { store := s1, origin := w.origin, trace := w.trace ++ [Event.key req] } := by
  simp [CacheMiddleware.RoundTripper, hc, hkey]

/-- A request whose entry is read and parsed is answered from the entry. -/
theorem roundTripper_hit {S T : Type} (m : CacheMiddleware S) (wire : Wire) (next : Handler S T)
    (req req1 : Request) (w : World S T) (key : String) (s1 s2 : S) (data : Bytes)
    (resp : Response)
    (hc : m.cacheableReq req = true)
    (hkey : m.key req w.store = ((.ok key, req1), s1))
    (hget : m.cache.get key s1 = (.ok data, s2))
    (hparse : bytesToResponse wire data req1 = .ok resp) :
    m.RoundTripper wire next req w
      = (.success resp,
          { store := s2, origin := w.origin,
            trace := w.trace ++ [Event.key req, Event.get key] }) := by
  simp [CacheMiddleware.RoundTripper, hc, hkey, hget, hparse]

/-- A request whose entry is not read, or read and not parsed, is forwarded
through `group.Do`. -/
theorem roundTripper_miss {S T : Type} (m : CacheMiddleware S) (wire : Wire) (next : Handler S T)
    (req req1 : Request) (w : World S T) (key : String) (s1 s2 : S)
    (cached : Except Error Bytes)
    (hc : m.cacheableReq req = true)
    (hkey : m.key req w.store = ((.ok key, req1), s1))
    (hget : m.cache.get key s1 = (cached, s2))
    (hmiss : ∀ data, cached = .ok data → ∃ e, bytesToResponse wire data req1 = .error e) :
    m.RoundTripper wire next req w
      = forwardAndStore m wire next key req1
          { store := s2, origin := w.origin,
            trace := w.trace ++ [Event.key req, Event.get key] } := by
  cases cached with
  | error e => simp [CacheMiddleware.RoundTripper, hc, hkey, hget, groupDo]
  | ok data =>
    obtain ⟨e, he⟩ := hmiss data rfl
    simp [CacheMiddleware.RoundTripper, hc, hkey, hget, he, groupDo]

theorem replay_origin {S T : Type} (h : Request → T → Outcome × T) (req : Request) :
    ∀ (n : Nat) (w : World S T),
      (replay (origin h) req n w).2.store = w.store
        ∧ (replay (origin h) req n w).2.trace = w.trace ++ List.replicate n (Event.next req) := by
  intro n
  induction n with
  | zero => intro w; simp [replay]
  | succ n ih =>
    intro w
    obtain ⟨h1, h2⟩ := ih (origin h req w).2
    simp only [replay]
    refine ⟨by rw [h1]; rfl, ?_⟩
    rw [h2]
    simp [origin, List.replicate_succ]

theorem replay_congr {S T : Type} (f g : Handler S T) (req : Request)
    (hfg : ∀ w, f req w = g req w) : ∀ (n : Nat) (w : World S T), replay f req n w = replay g req n w := by
  intro n
  induction n with
  | zero => intro w; rfl
  | succ n ih => intro w; simp only [replay, hfg, ih]

/-- C4: for a request the cacheability predicate refuses, one call of the
interceptor is one call of the downstream handler, whose pair it returns: the
backend state is untouched and the only recorded event is that call (no key
derivation, no `Get`, no `Set`, no `SetWithTTL`); and `n` calls in a row are `n`
calls of the downstream handler, with the backend still untouched. -/
theorem noncacheable_bypasses_cache {S T : Type} (m : CacheMiddleware S) (wire : Wire)
    (h : Request → T → Outcome × T) (req : Request)
    (hnc : m.cacheableReq req = false) :
    (∀ (next : Handler S T) (w : World S T), m.RoundTripper wire next req w = next req w)
      ∧ (∀ w : World S T,
          m.RoundTripper wire (origin h) req w
            = ((h req w.origin).1,
                { store := w.store, origin := (h req w.origin).2,
                  trace := w.trace ++ [Event.next req] }))
      ∧ (∀ (n : Nat) (w : World S T),
          replay (m.RoundTripper wire (origin h)) req n w = replay (origin h) req n w
            ∧ (replay (m.RoundTripper wire (origin h)) req n w).2.store = w.store
            ∧ (replay (m.RoundTripper wire (origin h)) req n w).2.trace
                = w.trace ++ List.replicate n (Event.next req)) := by
  refine ⟨fun next w => roundTripper_bypass m wire next req w hnc, ?_, ?_⟩
  · intro w
    rw [roundTripper_bypass m wire _ req w hnc]
    rfl
  · intro n w
    have hrep := replay_congr (m.RoundTripper wire (origin h)) (origin h) req
      (fun w => roundTripper_bypass m wire _ req w hnc) n w
    rw [hrep]
    exact ⟨rfl, replay_origin h req n w⟩


/-! ## The cache interceptor: write-back -/

theorem foldl_withCacheableReq_ttl {S : Type} (fs : List (Request → Bool)) :
    ∀ c : CacheMiddleware S,
      ((fs.map WithCacheableReq).foldl (fun c opt => opt c) c).ttl = c.ttl
        ∧ ((fs.map WithCacheableReq).foldl (fun c opt => opt c) c).cache = c.cache := by
  induction fs with
  | nil => intro c; exact ⟨rfl, rfl⟩
  | cons f fs ih =>
    intro c
    simp only [List.map_cons, List.foldl_cons]
    obtain ⟨h1, h2⟩ := ih (WithCacheableReq f c)
    exact ⟨by rw [h1]; rfl, by rw [h2]; rfl⟩

/-- Without a `WithTTL` option the configured time-to-live is zero. -/
theorem new_ttl_default {S : Type} (cache : Cache S) (fs : List (Request → Bool)) :
    (New cache (fs.map WithCacheableReq)).ttl = 0 :=
  (foldl_withCacheableReq_ttl fs _).1

theorem forwardAndStore_setWithTTL {S T : Type} (m : CacheMiddleware S) (wire : Wire)
    (h : Request → T → Outcome × T) (key : String) (req1 : Request) (w : World S T)
    (resp resp1 : Response) (t1 : T) (dumped : Bytes)
    (f : String → Bytes → Int → S → Option Error × S)
    (hnext : h req1 w.origin = (.success resp, t1))
    (hdump : DumpResponse wire resp = (.ok dumped, resp1))
    (hf : m.cache.setWithTTL = some f) (httl : 0 < m.ttl) :
    forwardAndStore m wire (origin h) key req1 w
      = (.success resp1,
          { store := (f key dumped m.ttl w.store).2, origin := t1,
            trace := w.trace ++ [Event.next req1, Event.setWithTTL key dumped m.ttl] }) := by
  simp [forwardAndStore, origin, hnext, hdump, hf, httl]

theorem forwardAndStore_set {S T : Type} (m : CacheMiddleware S) (wire : Wire)
    (h : Request → T → Outcome × T) (key : String) (req1 : Request) (w : World S T)
    (resp resp1 : Response) (t1 : T) (dumped : Bytes)
    (hnext : h req1 w.origin = (.success resp, t1))
    (hdump : DumpResponse wire resp = (.ok dumped, resp1))
    (hplain : m.cache.setWithTTL = none ∨ m.ttl ≤ 0) :
    forwardAndStore m wire (origin h) key req1 w
      = (.success resp1,
          { store := (m.cache.set key dumped w.store).2, origin := t1,
            trace := w.trace ++ [Event.next req1, Event.set key dumped] }) := by
  rcases hplain with hn | hle
  · simp [forwardAndStore, origin, hnext, hdump, hn]
  · have : ¬ (0 < m.ttl) := not_lt.mpr hle
    cases hf : m.cache.setWithTTL <;> simp [forwardAndStore, origin, hnext, hdump, hf, this]

theorem forwardAndStore_failure {S T : Type} (m : CacheMiddleware S) (wire : Wire)
    (h : Request → T → Outcome × T) (key : String) (req1 : Request) (w : World S T)
    (r : Option Response) (e : Error) (t1 : T)
    (hnext : h req1 w.origin = (.failure r e, t1)) :
    forwardAndStore m wire (origin h) key req1 w
      = (.failure r e,
          { store := w.store, origin := t1, trace := w.trace ++ [Event.next req1] }) := by
  simp [forwardAndStore, origin, hnext]

/-- A miss that is written back with `SetWithTTL`. -/
theorem roundTripper_miss_setWithTTL {S T : Type} (m : CacheMiddleware S) (wire : Wire)
    (h : Request → T → Outcome × T) (req req1 : Request) (w : World S T) (key : String)
    (s1 s2 : S) (cached : Except Error Bytes) (resp resp1 : Response) (t1 : T) (dumped : Bytes)
    (f : String → Bytes → Int → S → Option Error × S)
    (hc : m.cacheableReq req = true)
    (hkey : m.key req w.store = ((.ok key, req1), s1))
    (hget : m.cache.get key s1 = (cached, s2))
    (hmiss : ∀ data, cached = .ok data → ∃ e, bytesToResponse wire data req1 = .error e)
    (hnext : h req1 w.origin = (.success resp, t1))
    (hdump : DumpResponse wire resp = (.ok dumped, resp1))
    (hf : m.cache.setWithTTL = some f) (httl : 0 < m.ttl) :
    m.RoundTripper wire (origin h) req w
      = (.success resp1,
          { store := (f key dumped m.ttl s2).2, origin := t1,
            trace := w.trace ++ [Event.key req, Event.get key, Event.next req1,
              Event.setWithTTL key dumped m.ttl] }) := by
  rw [roundTripper_miss m wire (origin h) req req1 w key s1 s2 cached hc hkey hget hmiss,
    forwardAndStore_setWithTTL m wire h key req1
      { store := s2, origin := w.origin, trace := w.trace ++ [Event.key req, Event.get key] }
      resp resp1 t1 dumped f hnext hdump hf httl]
  simp

/-- A miss that is written back with `Set`. -/
theorem roundTripper_miss_set {S T : Type} (m : CacheMiddleware S) (wire : Wire)
    (h : Request → T → Outcome × T) (req req1 : Request) (w : World S T) (key : String)
    (s1 s2 : S) (cached : Except Error Bytes) (resp resp1 : Response) (t1 : T) (dumped : Bytes)
    (hc : m.cacheableReq req = true)
    (hkey : m.key req w.store = ((.ok key, req1), s1))
    (hget : m.cache.get key s1 = (cached, s2))
    (hmiss : ∀ data, cached = .ok data → ∃ e, bytesToResponse wire data req1 = .error e)
    (hnext : h req1 w.origin = (.success resp, t1))
    (hdump : DumpResponse wire resp = (.ok dumped, resp1))
    (hplain : m.cache.setWithTTL = none ∨ m.ttl ≤ 0) :
    m.RoundTripper wire (origin h) req w
      = (.success resp1,
          { store := (m.cache.set key dumped s2).2, origin := t1,
            trace := w.trace ++ [Event.key req, Event.get key, Event.next req1,
              Event.set key dumped] }) := by
  rw [roundTripper_miss m wire (origin h) req req1 w key s1 s2 cached hc hkey hget hmiss,
    forwardAndStore_set m wire h key req1
      { store := s2, origin := w.origin, trace := w.trace ++ [Event.key req, Event.get key] }
      resp resp1 t1 dumped hnext hdump hplain]
  simp

/-- C5: on a miss (the key is derived; `Get` fails or its bytes do not parse)
where the downstream handler succeeds and the response serializes, the
interceptor records, after the key derivation, the `Get` and the forward,
exactly one backend write of the serialized response under the key:
`SetWithTTL` with the configured duration when the backend is a `CacheWithTTL`
and the duration is positive, `Set` when it is not or the duration is not
positive; and a middleware built by `New` without a `WithTTL` option writes
with `Set`. -/
theorem miss_writes_once {S T : Type} (m : CacheMiddleware S) (wire : Wire)
    (h : Request → T → Outcome × T) (req req1 : Request) (w : World S T) (key : String)
    (s1 s2 : S) (cached : Except Error Bytes) (resp resp1 : Response) (t1 : T) (dumped : Bytes)
    (hc : m.cacheableReq req = true)
    (hkey : m.key req w.store = ((.ok key, req1), s1))
    (hget : m.cache.get key s1 = (cached, s2))
    (hmiss : ∀ data, cached = .ok data → ∃ e, bytesToResponse wire data req1 = .error e)
    (hnext : h req1 w.origin = (.success resp, t1))
    (hdump : DumpResponse wire resp = (.ok dumped, resp1)) :
    (∀ f, m.cache.setWithTTL = some f → 0 < m.ttl →
        m.RoundTripper wire (origin h) req w
          = (.success resp1,
              { store := (f key dumped m.ttl s2).2, origin := t1,
                trace := w.trace ++ [Event.key req, Event.get key, Event.next req1,
                  Event.setWithTTL key dumped m.ttl] }))
      ∧ (m.cache.setWithTTL = none ∨ m.ttl ≤ 0 →
          m.RoundTripper wire (origin h) req w
            = (.success resp1,
                { store := (m.cache.set key dumped s2).2, origin := t1,
                  trace := w.trace ++ [Event.key req, Event.get key, Event.next req1,
                    Event.set key dumped] }))
      ∧ (((m.RoundTripper wire (origin h) req w).2.trace.drop w.trace.length).filter
            Event.isWrite).length = 1
      ∧ (∀ fs : List (Request → Bool), m = New m.cache (fs.map WithCacheableReq) →
          (m.RoundTripper wire (origin h) req w).2.trace
            = w.trace ++ [Event.key req, Event.get key, Event.next req1,
                Event.set key dumped]) := by
  have hA := fun f hf httl => roundTripper_miss_setWithTTL m wire h req req1 w key s1 s2 cached
    resp resp1 t1 dumped f hc hkey hget hmiss hnext hdump hf httl
  have hB := roundTripper_miss_set m wire h req req1 w key s1 s2 cached resp resp1 t1 dumped
    hc hkey hget hmiss hnext hdump
  refine ⟨hA, hB, ?_, ?_⟩
  · by_cases hplain : m.cache.setWithTTL = none ∨ m.ttl ≤ 0
    · rw [hB hplain]
      simp [Event.isWrite]
    · have h2 : 0 < m.ttl := not_le.mp (fun e => hplain (Or.inr e))
      cases hf : m.cache.setWithTTL with
      | none => exact absurd (Or.inl hf) hplain
      | some f =>
        rw [hA f hf h2]
        simp [Event.isWrite]
  · intro fs hfs
    have httl : m.ttl ≤ 0 := by
      rw [hfs, new_ttl_default]
    rw [hB (Or.inr httl)]

/-- C6: on a miss (the key is derived; `Get` fails or its bytes do not parse)
where the downstream handler returns an error, the interceptor returns the
downstream handler's pair, that error included, and after the `Get` it records
the forward and nothing else: no `Set`, no `SetWithTTL`, and the backend is in
the state the `Get` left it in. -/
theorem forward_error_not_cached {S T : Type} (m : CacheMiddleware S) (wire : Wire)
    (h : Request → T → Outcome × T) (req req1 : Request) (w : World S T) (key : String)
    (s1 s2 : S) (cached : Except Error Bytes) (r : Option Response) (e : Error) (t1 : T)
    (hc : m.cacheableReq req = true)
    (hkey : m.key req w.store = ((.ok key, req1), s1))
    (hget : m.cache.get key s1 = (cached, s2))
    (hmiss : ∀ data, cached = .ok data → ∃ e, bytesToResponse wire data req1 = .error e)
    (hnext : h req1 w.origin = (.failure r e, t1)) :
    m.RoundTripper wire (origin h) req w
        = (.failure r e,
            { store := s2, origin := t1,
              trace := w.trace ++ [Event.key req, Event.get key, Event.next req1] })
      ∧ (m.RoundTripper wire (origin h) req w).1.err? = some e
      ∧ (m.RoundTripper wire (origin h) req w).1.resp? = r
      ∧ ((m.RoundTripper wire (origin h) req w).2.trace.drop w.trace.length).filter
          Event.isWrite = []
      ∧ (m.RoundTripper wire (origin h) req w).2.store = s2 := by
  have hm := roundTripper_miss m wire (origin h) req req1 w key s1 s2 cached hc hkey hget hmiss
  have hout : m.RoundTripper wire (origin h) req w
      = (.failure r e,
          { store := s2, origin := t1,
            trace := w.trace ++ [Event.key req, Event.get key, Event.next req1] }) := by
    rw [hm, forwardAndStore_failure m wire h key req1
      { store := s2, origin := w.origin, trace := w.trace ++ [Event.key req, Event.get key] }
      r e t1 hnext]
    simp
  refine ⟨hout, ?_, ?_, ?_, ?_⟩ <;> rw [hout] <;> simp [Outcome.err?, Outcome.resp?, Event.isWrite]


/-! ## The cache interceptor: failing open -/

theorem dumpResponse_head (wire : Wire) (resp : Response) :
    (DumpResponse wire resp).2.status = resp.status
      ∧ (DumpResponse wire resp).2.header = resp.header := by
  obtain ⟨st, hd, body⟩ := resp
  cases body with
  | none => exact ⟨rfl, rfl⟩
  | some b =>
    obtain ⟨pending, fail, closeErr⟩ := b
    cases fail <;> cases closeErr <;> exact ⟨rfl, rfl⟩

theorem dumpResponse_readable (wire : Wire) (resp : Response) (hr : resp.readable) :
    (DumpResponse wire resp).2 = resp := by
  obtain ⟨st, hd, body⟩ := resp
  cases body with
  | none => rfl
  | some b =>
    obtain ⟨pending, fail, closeErr⟩ := b
    obtain ⟨h1, h2⟩ := hr _ rfl
    have h3 : fail = none := h1
    have h4 : closeErr = none := h2
    subst h3 h4
    rfl

/-- A body that fails to read or to close cannot be serialized. -/
theorem dumpResponse_ok_readable (wire : Wire) (resp : Response) (dumped : Bytes)
    (hd : (DumpResponse wire resp).1 = .ok dumped) : resp.readable := by
  obtain ⟨st, hd0, body⟩ := resp
  intro b hb
  obtain ⟨pending, fail, closeErr⟩ := b
  have hb1 : body = some { pending := pending, fail := fail, closeErr := closeErr } := hb
  subst hb1
  cases fail with
  | some e => simp [DumpResponse, drainBody, Body.readAll] at hd
  | none =>
    cases closeErr with
    | some e => simp [DumpResponse, drainBody, Body.readAll, Body.close] at hd
    | none => exact ⟨rfl, rfl⟩

/-- What `DumpResponse` leaves of the response: the response as it was, or, when
its body fails to read or to close, the response with that body consumed. -/
theorem dumpResponse_effect (wire : Wire) (resp : Response) :
    (DumpResponse wire resp).2 = resp
      ∨ ∃ b, resp.body = some b ∧ (b.fail ≠ none ∨ b.closeErr ≠ none)
          ∧ (DumpResponse wire resp).2 = { resp with body := some b.readAll.2.2 } := by
  obtain ⟨st, hd, body⟩ := resp
  cases body with
  | none => exact Or.inl rfl
  | some b =>
    obtain ⟨pending, fail, closeErr⟩ := b
    cases fail with
    | some e => exact Or.inr ⟨_, rfl, Or.inl (by simp), rfl⟩
    | none =>
      cases closeErr with
      | some e => exact Or.inr ⟨_, rfl, Or.inr (by simp), rfl⟩
      | none => exact Or.inl rfl

/-- A successful `DumpResponse` is the wire form of the response's content. -/
theorem dumpResponse_ok_write (wire : Wire) (resp : Response) (dumped : Bytes)
    (hd : (DumpResponse wire resp).1 = .ok dumped) :
    ∃ bytes, wire.write resp.status resp.header bytes = .ok dumped
      ∧ resp.content = (resp.status, resp.header, bytes, none) := by
  have hr := dumpResponse_ok_readable wire resp dumped hd
  obtain ⟨st, hd0, body⟩ := resp
  cases body with
  | none => exact ⟨[], hd, rfl⟩
  | some b =>
    obtain ⟨pending, fail, closeErr⟩ := b
    obtain ⟨h1, h2⟩ := hr _ rfl
    have h3 : fail = none := h1
    have h4 : closeErr = none := h2
    subst h3 h4
    exact ⟨pending, hd, rfl⟩

/-- What `forwardAndStore` hands back, next to what the downstream handler
returned to it. -/
theorem forwardAndStore_outcome {S T : Type} (m : CacheMiddleware S) (wire : Wire)
    (h : Request → T → Outcome × T) (key : String) (req1 : Request) (w : World S T) :
    (forwardAndStore m wire (origin h) key req1 w).1.err? = (h req1 w.origin).1.err?
      ∧ ((forwardAndStore m wire (origin h) key req1 w).1 = (h req1 w.origin).1
          ∨ ∃ resp, (h req1 w.origin).1 = .success resp
              ∧ (forwardAndStore m wire (origin h) key req1 w).1
                  = .success (DumpResponse wire resp).2)
      ∧ (forwardAndStore m wire (origin h) key req1 w).2.origin = (h req1 w.origin).2
      ∧ ∃ tail, (forwardAndStore m wire (origin h) key req1 w).2.trace
            = w.trace ++ Event.next req1 :: tail
          ∧ tail.filter Event.isNext = [] := by
  cases hd : h req1 w.origin with
  | mk o t1 =>
    cases o with
    | failure r e =>
      rw [forwardAndStore_failure m wire h key req1 w r e t1 hd]
      exact ⟨rfl, Or.inl rfl, rfl, [], rfl, rfl⟩
    | success resp =>
      cases hdump : DumpResponse wire resp with
      | mk dumped resp1 =>
        have hr1 : resp1 = (DumpResponse wire resp).2 := by rw [hdump]
        cases dumped with
        | error e =>
          have : forwardAndStore m wire (origin h) key req1 w
              = (.success resp1,
                  { store := w.store, origin := t1, trace := w.trace ++ [Event.next req1] }) := by
            simp [forwardAndStore, origin, hd, hdump]
          rw [this]
          exact ⟨rfl, Or.inr ⟨resp, rfl, by rw [hr1]⟩, rfl, [], rfl, rfl⟩
        | ok bytes =>
          by_cases hplain : m.cache.setWithTTL = none ∨ m.ttl ≤ 0
          · rw [forwardAndStore_set m wire h key req1 w resp resp1 t1 bytes hd hdump hplain]
            exact ⟨rfl, Or.inr ⟨resp, rfl, by rw [hr1]⟩, rfl, [Event.set key bytes], by simp, rfl⟩
          · have h2 : 0 < m.ttl := not_le.mp (fun e => hplain (Or.inr e))
            cases hf : m.cache.setWithTTL with
            | none => exact absurd (Or.inl hf) hplain
            | some f =>
              rw [forwardAndStore_setWithTTL m wire h key req1 w resp resp1 t1 bytes f hd hdump
                hf h2]
              exact ⟨rfl, Or.inr ⟨resp, rfl, by rw [hr1]⟩, rfl,
                [Event.setWithTTL key bytes m.ttl], by simp, rfl⟩


theorem roundTripper_not_hit {S T : Type} (m : CacheMiddleware S) (wire : Wire)
    (h : Request → T → Outcome × T) (req : Request) (w : World S T)
    (hc : m.cacheableReq req = true)
    (hnot : keyFails m req w.store
      ∨ ∃ key, (m.key req w.store).1.1 = .ok key
          ∧ ∀ data, (m.cache.get key (m.key req w.store).2).1 = .ok data →
              ∃ e, bytesToResponse wire data (m.key req w.store).1.2 = .error e) :
    (m.RoundTripper wire (origin h) req w).1.err?
        = (h (m.key req w.store).1.2 w.origin).1.err?
      ∧ ((m.RoundTripper wire (origin h) req w).1 = (h (m.key req w.store).1.2 w.origin).1
          ∨ ∃ resp, (h (m.key req w.store).1.2 w.origin).1 = .success resp
              ∧ (m.RoundTripper wire (origin h) req w).1 = .success (DumpResponse wire resp).2)
      ∧ (m.RoundTripper wire (origin h) req w).2.origin
          = (h (m.key req w.store).1.2 w.origin).2
      ∧ ((m.RoundTripper wire (origin h) req w).2.trace.drop w.trace.length).filter
          Event.isNext = [Event.next (m.key req w.store).1.2] := by
  rcases hnot with ⟨e, he⟩ | ⟨key, hk, hmiss⟩
  · have hkey : m.key req w.store
        = ((.error e, (m.key req w.store).1.2), (m.key req w.store).2) := by
      rw [← he]
    rw [roundTripper_nokey m wire (origin h) req _ w e _ hc hkey]
    refine ⟨rfl, Or.inl rfl, rfl, ?_⟩
    simp [origin, Event.isNext]
  · have hkey : m.key req w.store
        = ((.ok key, (m.key req w.store).1.2), (m.key req w.store).2) := by
      rw [← hk]
    have hget : m.cache.get key (m.key req w.store).2
        = ((m.cache.get key (m.key req w.store).2).1,
            (m.cache.get key (m.key req w.store).2).2) := rfl
    rw [roundTripper_miss m wire (origin h) req _ w key _ _ _ hc hkey hget hmiss]
    obtain ⟨h1, h2, h3, tail, h4, h5⟩ := forwardAndStore_outcome m wire h key
      (m.key req w.store).1.2
      { store := (m.cache.get key (m.key req w.store).2).2, origin := w.origin,
        trace := w.trace ++ [Event.key req, Event.get key] }
    refine ⟨h1, h2, h3, ?_⟩
    rw [h4]
    simp [Event.isNext, h5]

/-- C7 (as amended): for a cacheable request, when key derivation fails, or the
backend `Get` fails, or the stored bytes fail to deserialize, or the write-back
fails, the interceptor invokes the downstream handler exactly once and returns
its error (none when it succeeded) and its response, with the status and
header it came with. The pair returned is exactly the downstream handler's
pair whenever the response's body is absent or reads and closes without error;
the one other case is a response whose body fails to read or to close, which
is returned with that body consumed by `DumpResponse`. -/
theorem cache_failures_fail_open {S T : Type} (m : CacheMiddleware S) (wire : Wire)
    (h : Request → T → Outcome × T) (req : Request) (w : World S T)
    (hc : m.cacheableReq req = true)
    (hfail : keyFails m req w.store ∨ getFails m req w.store ∨ parseFails m wire req w.store
      ∨ writeFails m wire h req w.store w.origin) :
    (m.RoundTripper wire (origin h) req w).1.err?
        = (h (m.key req w.store).1.2 w.origin).1.err?
      ∧ (m.RoundTripper wire (origin h) req w).1.resp?.map (fun r => (r.status, r.header))
          = (h (m.key req w.store).1.2 w.origin).1.resp?.map (fun r => (r.status, r.header))
      ∧ ((∀ resp, (h (m.key req w.store).1.2 w.origin).1 = .success resp → resp.readable) →
          (m.RoundTripper wire (origin h) req w).1 = (h (m.key req w.store).1.2 w.origin).1)
      ∧ ((m.RoundTripper wire (origin h) req w).1 = (h (m.key req w.store).1.2 w.origin).1
          ∨ ∃ resp b, (h (m.key req w.store).1.2 w.origin).1 = .success resp
              ∧ resp.body = some b ∧ (b.fail ≠ none ∨ b.closeErr ≠ none)
              ∧ (m.RoundTripper wire (origin h) req w).1
                  = .success { resp with body := some b.readAll.2.2 })
      ∧ (m.RoundTripper wire (origin h) req w).2.origin
          = (h (m.key req w.store).1.2 w.origin).2
      ∧ ((m.RoundTripper wire (origin h) req w).2.trace.drop w.trace.length).filter
          Event.isNext = [Event.next (m.key req w.store).1.2] := by
  have hnot : keyFails m req w.store
      ∨ ∃ key, (m.key req w.store).1.1 = .ok key
          ∧ ∀ data, (m.cache.get key (m.key req w.store).2).1 = .ok data →
              ∃ e, bytesToResponse wire data (m.key req w.store).1.2 = .error e := by
    rcases hfail with hk | ⟨key, e, hk, hg⟩ | ⟨key, data, e, hk, hg, hp⟩
      | ⟨key, _, _, _, hk, hmiss, _⟩
    · exact Or.inl hk
    · refine Or.inr ⟨key, hk, ?_⟩
      intro data hd
      rw [hg] at hd
      cases hd
    · refine Or.inr ⟨key, hk, ?_⟩
      intro data1 hd
      rw [hg] at hd
      cases hd
      exact ⟨e, hp⟩
    · exact Or.inr ⟨key, hk, hmiss⟩
  obtain ⟨h1, h2, h3, h4⟩ := roundTripper_not_hit m wire h req w hc hnot
  refine ⟨h1, ?_, ?_, ?_, h3, h4⟩
  · rcases h2 with h2 | ⟨resp, hd, ho⟩
    · rw [h2]
    · rw [ho, hd]
      simp [Outcome.resp?, dumpResponse_head]
  · intro hr
    rcases h2 with h2 | ⟨resp, hd, ho⟩
    · exact h2
    · rw [ho, hd, dumpResponse_readable wire resp (hr resp hd)]
  · rcases h2 with h2 | ⟨resp, hd, ho⟩
    · exact Or.inl h2
    · rcases dumpResponse_effect wire resp with he | ⟨b, hb, hbad, he⟩
      · left
        rw [ho, hd, he]
      · right
        exact ⟨resp, b, hd, hb, hbad, by rw [ho, he]⟩

/-! ## The cache interceptor: the same request again -/

/-- The first call, over a backend without the entry: a miss, one forward, one
write, after which the backend holds the entry. -/
theorem first_call_stores {S T : Type} (m : CacheMiddleware S) (wire : Wire)
    (h : Request → T → Outcome × T) (req req1 : Request) (w : World S T) (key : String)
    (resp : Response) (t1 : T) (dumped : Bytes)
    (hc : m.cacheableReq req = true)
    (hkey : ∀ s, (m.key req s).1 = (.ok key, req1))
    (hempty : ∃ e, (m.cache.get key (m.key req w.store).2).1 = .error e)
    (hset : ∀ s, m.cache.holds key dumped (m.cache.set key dumped s).2)
    (hsetTTL : ∀ f, m.cache.setWithTTL = some f →
      ∀ s, m.cache.holds key dumped (f key dumped m.ttl s).2)
    (hnext : h req1 w.origin = (.success resp, t1))
    (hdump : (DumpResponse wire resp).1 = .ok dumped) :
    ∃ write s3, write.isWrite = true ∧ write.isNext = false ∧ m.cache.holds key dumped s3
      ∧ m.RoundTripper wire (origin h) req w
        = (.success resp,
            { store := s3, origin := t1,
              trace := w.trace ++ [Event.key req, Event.get key, Event.next req1, write] }) := by
  obtain ⟨e, he⟩ := hempty
  have hk : m.key req w.store = ((.ok key, req1), (m.key req w.store).2) := by
    rw [← hkey w.store]
  have hget : m.cache.get key (m.key req w.store).2
      = (.error e, (m.cache.get key (m.key req w.store).2).2) := by
    rw [← he]
  have hmiss : ∀ data, (Except.error e : Except Error Bytes) = .ok data →
      ∃ e1, bytesToResponse wire data req1 = .error e1 := by
    intro data hd; cases hd
  have hd2 : DumpResponse wire resp = (.ok dumped, resp) :=
    Prod.ext hdump
      (dumpResponse_readable wire resp (dumpResponse_ok_readable wire resp dumped hdump))
  by_cases hplain : m.cache.setWithTTL = none ∨ m.ttl ≤ 0
  · exact ⟨Event.set key dumped, _, rfl, rfl, hset _,
      roundTripper_miss_set m wire h req req1 w key _ _ _ resp resp t1 dumped hc hk hget hmiss
        hnext hd2 hplain⟩
  · have h2 : 0 < m.ttl := not_le.mp (fun e => hplain (Or.inr e))
    cases hf : m.cache.setWithTTL with
    | none => exact absurd (Or.inl hf) hplain
    | some f =>
      exact ⟨Event.setWithTTL key dumped m.ttl, _, rfl, rfl, hsetTTL f hf _,
        roundTripper_miss_setWithTTL m wire h req req1 w key _ _ _ resp resp t1 dumped f hc hk
          hget hmiss hnext hd2 hf h2⟩

/-- A later call, over a backend that holds the entry: a hit, no forward, no
write, and the backend still holds the entry. -/
theorem later_call_hits {S T : Type} (m : CacheMiddleware S) (wire : Wire)
    (h : Request → T → Outcome × T) (req req1 : Request) (w : World S T) (key : String)
    (resp2 : Response) (dumped : Bytes)
    (hc : m.cacheableReq req = true)
    (hkey : ∀ s, (m.key req s).1 = (.ok key, req1))
    (hkeyStore : ∀ s, m.cache.holds key dumped s → m.cache.holds key dumped (m.key req s).2)
    (hgetStore : ∀ s, m.cache.holds key dumped s → m.cache.holds key dumped (m.cache.get key s).2)
    (hparse : bytesToResponse wire dumped req1 = .ok resp2)
    (hholds : m.cache.holds key dumped w.store) :
    ∃ s2, m.cache.holds key dumped s2
      ∧ m.RoundTripper wire (origin h) req w
        = (.success resp2,
            { store := s2, origin := w.origin,
              trace := w.trace ++ [Event.key req, Event.get key] }) := by
  have hk : m.key req w.store = ((.ok key, req1), (m.key req w.store).2) := by
    rw [← hkey w.store]
  have h1 := hkeyStore _ hholds
  have hget : m.cache.get key (m.key req w.store).2
      = (.ok dumped, (m.cache.get key (m.key req w.store).2).2) := by
    have : (m.cache.get key (m.key req w.store).2).1 = .ok dumped := h1
    rw [← this]
  exact ⟨_, hgetStore _ h1,
    roundTripper_hit m wire (origin h) req req1 w key _ _ dumped resp2 hc hk hget hparse⟩

theorem replay_hits {S T : Type} (m : CacheMiddleware S) (wire : Wire)
    (h : Request → T → Outcome × T) (req req1 : Request) (key : String)
    (resp2 : Response) (dumped : Bytes)
    (hc : m.cacheableReq req = true)
    (hkey : ∀ s, (m.key req s).1 = (.ok key, req1))
    (hkeyStore : ∀ s, m.cache.holds key dumped s → m.cache.holds key dumped (m.key req s).2)
    (hgetStore : ∀ s, m.cache.holds key dumped s → m.cache.holds key dumped (m.cache.get key s).2)
    (hparse : bytesToResponse wire dumped req1 = .ok resp2) :
    ∀ (n : Nat) (w : World S T), m.cache.holds key dumped w.store →
      (replay (m.RoundTripper wire (origin h)) req n w).1 = List.replicate n (.success resp2)
        ∧ (replay (m.RoundTripper wire (origin h)) req n w).2.origin = w.origin
        ∧ (replay (m.RoundTripper wire (origin h)) req n w).2.trace
            = w.trace ++ (List.replicate n [Event.key req, Event.get key]).flatten := by
  intro n
  induction n with
  | zero => intro w _; simp [replay]
  | succ n ih =>
    intro w hholds
    obtain ⟨s2, hs2, hcall⟩ := later_call_hits m wire h req req1 w key resp2 dumped hc hkey
      hkeyStore hgetStore hparse hholds
    obtain ⟨i1, i2, i3⟩ := ih
      { store := s2, origin := w.origin, trace := w.trace ++ [Event.key req, Event.get key] } hs2
    simp only [replay]
    rw [hcall]
    simp only
    rw [i1, i2, i3]
    simp [List.replicate_succ]

/-- C1 (as amended): a cacheable request whose key derivation succeeds, with
the same key on every call, is sent `N >= 1` times in a row over a backend that
has no entry under the key at first and from a write on returns on `Get` the
bytes written; the downstream handler succeeds on the first call with a
response that serializes. Then the first call returns the downstream handler's
response and each later call the response parsed from the stored entry, all of
the first call's content (status, header, body); the downstream handler is
invoked exactly once, on the first call; and the calls recorded are key
derivation, `Get`, the forward and one write, then key derivation and `Get`
for each later call. -/
theorem sequential_replay_forwards_once {S T : Type} (m : CacheMiddleware S) (wire : LawfulWire)
    (h : Request → T → Outcome × T) (req req1 : Request) (w : World S T) (key : String)
    (N : Nat) (resp : Response) (t1 : T) (dumped : Bytes)
    (hN : 1 ≤ N)
    (hc : m.cacheableReq req = true)
    (hkey : ∀ s, (m.key req s).1 = (.ok key, req1))
    (hkeyStore : ∀ s, m.cache.holds key dumped s → m.cache.holds key dumped (m.key req s).2)
    (hempty : ∃ e, (m.cache.get key (m.key req w.store).2).1 = .error e)
    (hset : ∀ s, m.cache.holds key dumped (m.cache.set key dumped s).2)
    (hsetTTL : ∀ f, m.cache.setWithTTL = some f →
      ∀ s, m.cache.holds key dumped (f key dumped m.ttl s).2)
    (hgetStore : ∀ s, m.cache.holds key dumped s → m.cache.holds key dumped (m.cache.get key s).2)
    (hnext : h req1 w.origin = (.success resp, t1))
    (hdump : (DumpResponse wire.toWire resp).1 = .ok dumped) :
    (∃ resp2, bytesToResponse wire.toWire dumped req1 = .ok resp2
        ∧ resp2.content = resp.content
        ∧ (replay (m.RoundTripper wire.toWire (origin h)) req N w).1
            = .success resp :: List.replicate (N - 1) (.success resp2))
      ∧ (∀ o ∈ (replay (m.RoundTripper wire.toWire (origin h)) req N w).1,
          ∃ r, o = .success r ∧ r.content = resp.content)
      ∧ ((replay (m.RoundTripper wire.toWire (origin h)) req N w).2.trace.drop
            w.trace.length).filter Event.isNext = [Event.next req1]
      ∧ (replay (m.RoundTripper wire.toWire (origin h)) req N w).2.origin = t1
      ∧ ∃ write, write.isWrite = true
          ∧ (replay (m.RoundTripper wire.toWire (origin h)) req N w).2.trace
            = w.trace ++ [Event.key req, Event.get key, Event.next req1, write]
              ++ (List.replicate (N - 1) [Event.key req, Event.get key]).flatten := by
  obtain ⟨n, rfl⟩ : ∃ n, N = n + 1 := ⟨N - 1, by omega⟩
  obtain ⟨bytes, hwrite, hcontent⟩ := dumpResponse_ok_write wire.toWire resp dumped hdump
  obtain ⟨resp2, hparse, hcontent2⟩ := wire.roundTrip resp.status resp.header bytes dumped req1
    hwrite
  have hsame : resp2.content = resp.content := hcontent2.trans hcontent.symm
  obtain ⟨write, s3, hw1, hw2, hs3, hfirst⟩ := first_call_stores m wire.toWire h req req1 w key
    resp t1 dumped hc hkey hempty hset hsetTTL hnext hdump
  obtain ⟨r1, r2, r3⟩ := replay_hits m wire.toWire h req req1 key resp2 dumped hc hkey hkeyStore
    hgetStore hparse n
    { store := s3, origin := t1,
      trace := w.trace ++ [Event.key req, Event.get key, Event.next req1, write] } hs3
  have hnone : ∀ k : Nat,
      ((List.replicate k [Event.key req, Event.get key]).flatten).filter Event.isNext = [] := by
    intro k
    induction k with
    | zero => rfl
    | succ k ih => simp [List.replicate_succ, Event.isNext, ih]
  have hfour : List.filter Event.isNext [Event.key req, Event.get key, Event.next req1, write]
      = [Event.next req1] := by
    rw [List.filter_cons_of_neg (by simp [Event.isNext]),
      List.filter_cons_of_neg (by simp [Event.isNext]),
      List.filter_cons_of_pos (by simp [Event.isNext]),
      List.filter_cons_of_neg (by simp [hw2]), List.filter_nil]
  simp only [replay]
  rw [hfirst]
  simp only
  rw [r1, r2, r3]
  refine ⟨⟨resp2, hparse, hsame, by simp⟩, ?_, ?_, rfl, write, hw1, by simp⟩
  · intro o ho
    rcases List.mem_cons.mp ho with rfl | ho
    · exact ⟨resp, rfl, rfl⟩
    · exact ⟨resp2, List.eq_of_mem_replicate ho, hsame⟩
  · simp only [List.append_assoc, List.drop_left, List.filter_append, hnone, hfour,
      List.append_nil]

/-! ## Concrete runs -/

theorem noncacheable_bypasses_cache_witness :
    (New (memCache true) [WithCacheableReq (fun _ => false)]).cacheableReq postX = false
      ∧ (replay ((New (memCache true) [WithCacheableReq (fun _ => false)]).RoundTripper plainWire
            (origin helloServer)) postX 2 freshWorld).2.store = freshWorld.store
      ∧ (replay ((New (memCache true) [WithCacheableReq (fun _ => false)]).RoundTripper plainWire
            (origin helloServer)) postX 2 freshWorld).2.trace
          = freshWorld.trace ++ List.replicate 2 (Event.next postX) :=
  ⟨rfl,
    ((noncacheable_bypasses_cache (New (memCache true) [WithCacheableReq (fun _ => false)])
      plainWire helloServer postX rfl).2.2 2 freshWorld).2⟩

theorem miss_writes_once_witness :
    (New (memCache true) [WithTTL 300]).cacheableReq getA = true
      ∧ helloServer getA freshWorld.origin = (.success hello0, 1)
      ∧ DumpResponse plainWire hello0 = (.ok hello0Wire, hello0)
      ∧ (New (memCache true) [WithTTL 300]).RoundTripper plainWire (origin helloServer) getA
            freshWorld
          = (.success hello0,
              { store := [("af0f333b6e57e9f9", hello0Wire)], origin := 1,
                trace := [Event.key getA, Event.get "af0f333b6e57e9f9", Event.next getA,
                  Event.setWithTTL "af0f333b6e57e9f9" hello0Wire 300] }) :=
  ⟨rfl, by decide, by decide,
    (miss_writes_once (New (memCache true) [WithTTL 300]) plainWire helloServer getA getA
      freshWorld "af0f333b6e57e9f9" [] [] (.error "not found") hello0 hello0 1 hello0Wire
      rfl (by decide) (by decide) (by intro data hd; cases hd) (by decide) (by decide)).1
      (fun k v _ s => (none, (k, v) :: s)) rfl (by decide)⟩

theorem forward_error_not_cached_witness :
    (New (memCache false) []).cacheableReq getA = true
      ∧ deadServer getA freshWorld.origin = (.failure none "connection refused", 1)
      ∧ ((New (memCache false) []).RoundTripper plainWire (origin deadServer) getA
            freshWorld).1.err? = some "connection refused"
      ∧ ((New (memCache false) []).RoundTripper plainWire (origin deadServer) getA
            freshWorld).2.store = [] :=
  ⟨rfl, rfl,
    (forward_error_not_cached (New (memCache false) []) plainWire deadServer getA getA
      freshWorld "af0f333b6e57e9f9" [] [] (.error "not found") none "connection refused" 1
      rfl (by decide) (by decide) (by intro data hd; cases hd) rfl).2.1,
    (forward_error_not_cached (New (memCache false) []) plainWire deadServer getA getA
      freshWorld "af0f333b6e57e9f9" [] [] (.error "not found") none "connection refused" 1
      rfl (by decide) (by decide) (by intro data hd; cases hd) rfl).2.2.2.2⟩

theorem downCache_writeFails :
    writeFails (New downCache []) plainWire helloServer postX downWorld.store downWorld.origin := by
  refine ⟨"e09765199b1f3609", hello0, hello0Wire, "cache down", by decide, ?_, by decide,
    by decide, Or.inr ⟨Or.inl rfl, by decide⟩⟩
  intro data hd
  have hd1 : (Except.error "cache down" : Except Error Bytes) = .ok data := hd
  cases hd1

theorem cache_failures_fail_open_witness :
    (New downCache []).cacheableReq postX = true
      ∧ writeFails (New downCache []) plainWire helloServer postX downWorld.store
          downWorld.origin
      ∧ ((New downCache []).RoundTripper plainWire (origin helloServer) postX downWorld).1
          = .success hello0 :=
  ⟨rfl, downCache_writeFails,
    (cache_failures_fail_open (New downCache []) plainWire helloServer postX downWorld rfl
      (Or.inr (Or.inr (Or.inr downCache_writeFails)))).2.2.1
      (by
        intro resp hr b hb
        have h1 : resp = hello0 := by
          have h2 : Outcome.success hello0 = Outcome.success resp := hr
          exact (Outcome.success.inj h2).symm
        subst h1
        have h3 : b = Body.newReader (ascii "Hello, 0") := (Option.some.inj hb).symm
        subst h3
        exact ⟨rfl, rfl⟩)⟩

/-- C7 (as stated) fails: over a backend whose `Get` fails, a downstream handler
that succeeds with a response whose body fails to read, or reads and fails to
close, gets that body consumed by the attempt to serialize it, so the response
returned is not the one the downstream handler returned. -/
theorem cache_failures_counterexample :
    ((New downCache []).cacheableReq getA = true
        ∧ getFails (New downCache []) getA downWorld.store
        ∧ ((New downCache []).RoundTripper plainWire (origin truncServer) getA downWorld).1
            ≠ (truncServer ((New downCache []).key getA downWorld.store).1.2 downWorld.origin).1
        ∧ ((New downCache []).RoundTripper plainWire (origin truncServer) getA downWorld).1
            = .success
                { status := 200, header := [],
                  body := some { pending := [], fail := some "unexpected EOF" } })
      ∧ (getFails (New downCache []) getA downWorld.store
        ∧ ((New downCache []).RoundTripper plainWire (origin closeFailServer) getA downWorld).1
            ≠ (closeFailServer ((New downCache []).key getA downWorld.store).1.2
                downWorld.origin).1
        ∧ ((New downCache []).RoundTripper plainWire (origin closeFailServer) getA downWorld).1
            = .success
                { status := 200, header := [],
                  body := some
                    { pending := [], fail := none, closeErr := some "close failed" } }) :=
  ⟨⟨rfl, ⟨"af0f333b6e57e9f9", "cache down", by decide, by decide⟩, by decide, by decide⟩,
    ⟨"af0f333b6e57e9f9", "cache down", by decide, by decide⟩, by decide, by decide⟩

theorem memCache_holds_after_set (ttlCap : Bool) (key : String) (value : Bytes)
    (s : List (String × Bytes)) :
    (memCache ttlCap).holds key value ((key, value) :: s) := by
  simp [Cache.holds, memCache, List.lookup]

theorem sequential_replay_forwards_once_witness :
    (New (memCache true) [WithTTL 300]).cacheableReq getA = true
      ∧ typedServer getA freshWorld.origin = (.success typed0, 1)
      ∧ (DumpResponse framedWire.toWire typed0).1 = .ok typed0Wire
      ∧ (replay ((New (memCache true) [WithTTL 300]).RoundTripper framedWire.toWire
            (origin typedServer)) getA 3 freshWorld).1
          = [.success typed0, .success typed0, .success typed0]
      ∧ (∀ o ∈ (replay ((New (memCache true) [WithTTL 300]).RoundTripper framedWire.toWire
            (origin typedServer)) getA 3 freshWorld).1,
          ∃ r, o = .success r ∧ r.content = typed0.content)
      ∧ ((replay ((New (memCache true) [WithTTL 300]).RoundTripper framedWire.toWire
            (origin typedServer)) getA 3 freshWorld).2.trace.drop freshWorld.trace.length).filter
          Event.isNext = [Event.next getA] :=
  have hthm := sequential_replay_forwards_once (New (memCache true) [WithTTL 300]) framedWire
    typedServer getA getA freshWorld "af0f333b6e57e9f9" 3 typed0 1 typed0Wire
    (by decide) rfl
    (fun _ => by
      show GenerateRequestHash getA = (.ok "af0f333b6e57e9f9", getA)
      decide)
    (fun _ hs => hs) ⟨"not found", by decide⟩
    (fun s => memCache_holds_after_set true _ _ s)
    (fun f hf s => by
      have hf1 : f = fun k v _ s => (none, (k, v) :: s) := (Option.some.inj hf).symm
      subst hf1
      exact memCache_holds_after_set true _ _ s)
    (fun _ hs => hs) (by decide) (by decide)
  ⟨rfl, by decide, by decide, by decide, hthm.2.1, hthm.2.2.1⟩

/-- C1 (as stated) fails twice over. A cacheable request whose body fails to
read has no fingerprint: sent twice over the empty in-memory backend, with a
downstream handler that succeeds both times, it is forwarded both times. And a
request without a body whose response body fails to read is not stored: sent
twice, with a downstream handler that succeeds both times, it is forwarded both
times. -/
theorem sequential_replay_counterexample :
    ((New (memCache true) []).cacheableReq brokenPost = true
        ∧ freshWorld.store = []
        ∧ (replay ((New (memCache true) []).RoundTripper framedWire.toWire (origin helloServer))
              brokenPost 2 freshWorld).1.map Outcome.err? = [none, none]
        ∧ ((replay ((New (memCache true) []).RoundTripper framedWire.toWire (origin helloServer))
              brokenPost 2 freshWorld).2.trace.filter Event.isNext).length = 2)
      ∧ ((New (memCache true) []).cacheableReq getA = true
        ∧ (replay ((New (memCache true) []).RoundTripper framedWire.toWire (origin truncServer))
              getA 2 freshWorld).1.map Outcome.err? = [none, none]
        ∧ ((replay ((New (memCache true) []).RoundTripper framedWire.toWire (origin truncServer))
              getA 2 freshWorld).2.trace.filter Event.isNext).length = 2) := by
  decide


/-! ## Two callers at once -/

/-- `RoundTripper` is its part before `group.Do` followed by the rest. -/
theorem roundTripper_eq_lookup_join {S T : Type} (m : CacheMiddleware S) (wire : Wire)
    (next : Handler S T) (req : Request) (w : World S T) :
    m.RoundTripper wire next req w
      = m.join wire next (m.lookup wire next req w).1 (m.lookup wire next req w).2 := by
  unfold CacheMiddleware.RoundTripper CacheMiddleware.lookup
  by_cases hc : m.cacheableReq req = true
  · simp only [hc, Bool.not_true, Bool.false_eq_true, if_false]
    rcases hk : m.key req w.store with ⟨⟨k, req1⟩, s1⟩
    cases k with
    | error e => simp [CacheMiddleware.join]
    | ok key =>
      rcases hg : m.cache.get key s1 with ⟨cached, s2⟩
      cases cached with
      | error e => simp [hg, CacheMiddleware.join]
      | ok data =>
        cases hp : bytesToResponse wire data req1 with
        | error e => simp [hg, hp, CacheMiddleware.join]
        | ok resp => simp [hg, hp, CacheMiddleware.join]
  · have hc1 : m.cacheableReq req = false := by simpa using hc
    simp [hc1, CacheMiddleware.join]

/-- With a backend that writes with `Set` only, the duration given to `WithTTL`
goes nowhere: the entry is written with `Set`. -/
theorem withTTL_without_capability_writes_plain :
    ((New (memCache false) [WithTTL 300]).RoundTripper plainWire (origin helloServer) getA
        freshWorld).2.trace
      = [Event.key getA, Event.get "af0f333b6e57e9f9", Event.next getA,
          Event.set "af0f333b6e57e9f9" hello0Wire] := by
  decide

/-- C9 (the code on one schedule of two callers): two callers send the same
cacheable request at once over the empty in-memory backend; both run key
derivation and `Get` and miss before either enters `group.Do`; the first then
runs `group.Do` to its end, and after it the second. The downstream handler is
invoked twice, not once, the callers receive `Hello, 0` and `Hello, 1`, which
differ, and the entry is written twice; the same two calls one after the
other forward once. -/
theorem concurrent_callers_forward_twice :
    (New (memCache true) [WithTTL 300]).cacheableReq getA = true
      ∧ freshWorld.store = []
      ∧ (raceOfTwo (New (memCache true) [WithTTL 300]) framedWire.toWire (origin helloServer)
            getA freshWorld).1 = (.success hello0, .success hello1)
      ∧ hello0.content ≠ hello1.content
      ∧ ((raceOfTwo (New (memCache true) [WithTTL 300]) framedWire.toWire (origin helloServer)
            getA freshWorld).2.trace.filter Event.isNext).length = 2
      ∧ (raceOfTwo (New (memCache true) [WithTTL 300]) framedWire.toWire (origin helloServer)
            getA freshWorld).2.trace
          = [Event.key getA, Event.get "af0f333b6e57e9f9",
              Event.key getA, Event.get "af0f333b6e57e9f9",
              Event.next getA,
              Event.setWithTTL "af0f333b6e57e9f9" ([0, 200, 0] ++ ascii "Hello, 0") 300,
              Event.next getA,
              Event.setWithTTL "af0f333b6e57e9f9" ([0, 200, 0] ++ ascii "Hello, 1") 300]
      ∧ ((replay ((New (memCache true) [WithTTL 300]).RoundTripper framedWire.toWire
            (origin helloServer)) getA 2 freshWorld).2.trace.filter Event.isNext).length = 1 := by
  decide


end Httpc
